import Mathlib

/-!
Shallow embedding of the DNS wire-format ECS injection engine of
`src/functions/dns-query.js` (EdgeOne Pages DoH proxy).

Buffers (`Uint8Array` in the source) are modelled as `List Nat` whose
entries are byte values.  JavaScript reads out of the bounds of a
`Uint8Array` yield `undefined`, which the source's arithmetic coerces to
`0` (`undefined << 8`, `x | undefined`, `ipBytes[i] || 0`); the model
therefore reads with default `0`.  Stores into a `Uint8Array` wrap
modulo 256, which the model applies at each store.
-/

namespace DohEcs

/-- Out-of-bounds reads of a `Uint8Array` behave as 0 in the source's
arithmetic contexts. -/
def jsGet (buf : List Nat) (i : Nat) : Nat := buf.getD i 0

/-- `readU16(buf, off)`: `(buf[off] << 8) | buf[off + 1]`. -/
def readU16 (buf : List Nat) (off : Nat) : Nat :=
  jsGet buf off * 256 + jsGet buf (off + 1)

/-- `writeU16BE(value)`: `new Uint8Array([value >> 8, value & 0xff])`;
the `Uint8Array` constructor wraps each entry modulo 256. -/
def writeU16BE (value : Nat) : List Nat :=
  [(value >>> 8) % 256, value &&& 0xff]

/-- JavaScript `ToInt32`. -/
def toInt32 (n : Nat) : Int :=
  if n % 4294967296 < 2147483648 then (n % 4294967296 : Int)
  else (n % 4294967296 : Int) - 4294967296

/-- `readU32(buf, off)`: `(buf[off] * 2**24) | (buf[off+1] << 16) | (buf[off+2] << 8) | buf[off+3]`,
a signed 32-bit result in JavaScript. -/
def readU32 (buf : List Nat) (off : Nat) : Int :=
  toInt32 (jsGet buf off * 16777216 + jsGet buf (off + 1) * 65536 +
    jsGet buf (off + 2) * 256 + jsGet buf (off + 3))

/-- The body of the `skipName(buf, off)` `while` loop.  The loop runs
only while `o < buf.length` and advances `o` by at least one byte per
iteration, so `buf.length - o` bounds its iteration count; the loop is
modelled structurally on that bound and `skipName_unfold` below recovers
its defining equation. -/
def skipNameAux (buf : List Nat) : Nat → Nat → Nat
  | 0, o => o
  | fuel + 1, o =>
    if o < buf.length then
      let len := jsGet buf o
      if len = 0 then o + 1
      else if len &&& 0xc0 = 0xc0 then o + 2
      else skipNameAux buf fuel (o + 1 + len)
    else o

/-- `skipName(buf, off)`: walk length-prefixed labels until a zero octet
(consumed) or a compression pointer (2 bytes). -/
def skipName (buf : List Nat) (o : Nat) : Nat :=
  skipNameAux buf (buf.length - o) o

/-- `skipQuestion(buf, off)`. -/
def skipQuestion (buf : List Nat) (off : Nat) : Nat :=
  skipName buf off + 4

/-- `skipRR(buf, off)`. -/
def skipRR (buf : List Nat) (off : Nat) : Nat :=
  let endName := skipName buf off
  endName + 10 + readU16 buf (endName + 8)

/-- Iterate a skipping function `n` times (the `for` loops of
`findSections`). -/
def skipN (f : List Nat → Nat → Nat) (buf : List Nat) : Nat → Nat → Nat
  | 0, off => off
  | n + 1, off => skipN f buf n (f buf off)

structure Sections where
  qd : Nat
  an : Nat
  ns : Nat
  ar : Nat
  additionalStart : Nat
deriving Repr, DecidableEq

/-- `findSections(buf)`. -/
def findSections (buf : List Nat) : Sections :=
  let qd := readU16 buf 4
  let an := readU16 buf 6
  let ns := readU16 buf 8
  let ar := readU16 buf 10
  let off := skipN skipQuestion buf qd 12
  let off := skipN skipRR buf an off
  let off := skipN skipRR buf ns off
  { qd := qd, an := an, ns := ns, ar := ar, additionalStart := off }

structure RRSpan where
  nameStart : Nat
  nameEnd : Nat
  type : Nat
  klass : Nat
  ttl : Int
  rdlen : Nat
  rdataStart : Nat
  rdataEnd : Nat
deriving Repr, DecidableEq

/-- `parseAdditionalRecords(buf, arStart, arCount)`. -/
def parseAdditionalRecords (buf : List Nat) : Nat → Nat → List RRSpan
  | _, 0 => []
  | off, n + 1 =>
    let nameEnd := skipName buf off
    let rdlen := readU16 buf (nameEnd + 8)
    let rdataStart := nameEnd + 10
    let rdataEnd := rdataStart + rdlen
    { nameStart := off, nameEnd := nameEnd, type := readU16 buf nameEnd,
      klass := readU16 buf (nameEnd + 2), ttl := readU32 buf (nameEnd + 4),
      rdlen := rdlen, rdataStart := rdataStart, rdataEnd := rdataEnd } ::
      parseAdditionalRecords buf rdataEnd n

/-- `buf.slice(a, b)` for non-negative indices (clamped by `take`/`drop`). -/
def jsSlice (buf : List Nat) (a b : Nat) : List Nat :=
  (buf.take b).drop a

/-- The `trimmed` array of `buildEcsOption`:
`Math.ceil(sourcePrefixLength / 8)` address bytes (`ipBytes[i] || 0`,
each store wrapping modulo 256 as in a `Uint8Array`), with the last byte
masked by `0xff << (8 - rem)` when the prefix is not byte-aligned. -/
def ecsTrimmed (ipBytes : List Nat) (sourcePrefixLength : Nat) : List Nat :=
  let addrBytesCount := (sourcePrefixLength + 7) / 8
  let trimmed := (List.range addrBytesCount).map (fun i => jsGet ipBytes i % 256)
  let rem := sourcePrefixLength % 8
  if rem ≠ 0 ∧ addrBytesCount > 0 then
    trimmed.set (addrBytesCount - 1)
      (trimmed.getD (addrBytesCount - 1) 0 &&& (0xff <<< (8 - rem)))
  else trimmed

/-- `buildEcsOption(ipBytes, family, sourcePrefixLength)`. -/
def buildEcsOption (ipBytes : List Nat) (family sourcePrefixLength : Nat) : List Nat :=
  let trimmed := ecsTrimmed ipBytes sourcePrefixLength
  let familyBytes := writeU16BE family
  let optData := familyBytes ++ [sourcePrefixLength &&& 0xff, 0] ++ trimmed
  let code := writeU16BE 8
  let len := writeU16BE optData.length
  code ++ len ++ optData

/-- The body of the option-scanning `while` loop inside `injectECS`.
The loop runs only while `p + 4 ≤ rdataEnd` and advances `p` by at least
four bytes per iteration, so `rdataEnd - p` bounds its iteration count;
the loop is modelled structurally on that bound and
`parseOptions_unfold` below recovers its defining equation. -/
def parseOptionsAux (buf : List Nat) : Nat → Nat → Nat → List (List Nat)
  | 0, _, _ => []
  | fuel + 1, p, rdataEnd =>
    if p + 4 ≤ rdataEnd then
      let code := readU16 buf p
      let len := readU16 buf (p + 2)
      let optEnd := p + 4 + len
      if optEnd > rdataEnd then []
      else if code ≠ 8 then jsSlice buf p optEnd :: parseOptionsAux buf fuel optEnd rdataEnd
      else parseOptionsAux buf fuel optEnd rdataEnd
    else []

/-- The option-scanning `while` loop inside `injectECS`: collects the
slices of complete, in-bounds options whose code is not 8, and stops at
an incomplete header or at an option that overruns `rdataEnd`. -/
def parseOptions (buf : List Nat) (p rdataEnd : Nat) : List (List Nat) :=
  parseOptionsAux buf (rdataEnd - p) p rdataEnd

/-- The configuration fields `injectECS` reads (`loadConfig` also carries
the upstream URL and header name, which the engine does not use). -/
structure Cfg where
  ECS_V4_PREFIX : Nat
  ECS_V6_PREFIX : Nat
deriving Repr, DecidableEq

structure IpAddr where
  family : Nat
  bytes : List Nat
deriving Repr, DecidableEq

/-!
JavaScript strings are modelled as `List Char`; a string is falsy
exactly when it is empty.  `String.prototype.split` with a one-character
separator and with the two-character separator `"::"` are modelled
directly (leftmost, non-overlapping matches; an empty input yields one
empty group, as in JavaScript).
-/

/-- `str.split(sep)` for a single-character separator. -/
def jsSplitChar (sep : Char) (s : List Char) : List (List Char) :=
  match s with
  | [] => [[]]
  | c :: rest =>
    match jsSplitChar sep rest with
    | [] => [[]]
    | g :: gs => if c = sep then [] :: g :: gs else (c :: g) :: gs

/-- `str.split('::')`. -/
def jsSplitColonColon (s : List Char) : List (List Char) :=
  match s with
  | ':' :: ':' :: rest => [] :: jsSplitColonColon rest
  | c :: rest =>
    match jsSplitColonColon rest with
    | [] => [[]]
    | g :: gs => (c :: g) :: gs
  | [] => [[]]

/-- Digit-string to number (`Number(parts[i])` on a `/^\d+$/` match). -/
def digitsToNat (s : List Char) : Nat :=
  s.foldl (fun acc c => acc * 10 + (c.toNat - 48)) 0

/-- `parseIPv4(str)`. -/
def parseIPv4 (str : List Char) : Option (List Nat) :=
  let parts := jsSplitChar '.' str
  if parts.length ≠ 4 then none
  else
    let step := fun (acc : Option (List Nat)) (part : List Char) =>
      match acc with
      | none => none
      | some l =>
        if part.length > 0 ∧ part.all Char.isDigit then
          let n := digitsToNat part
          if n > 255 then none else some (l ++ [n])
        else none
    parts.foldl step (some [])

/-- JavaScript white space accepted by `parseInt`. -/
def isJsSpace (c : Char) : Bool :=
  c = ' ' ∨ c = '\t' ∨ c = '\n' ∨ c = '\x0d' ∨ c = '\x0c' ∨ c = '\x0b'

def hexDigitVal (c : Char) : Option Nat :=
  if '0' ≤ c ∧ c ≤ '9' then some (c.toNat - 48)
  else if 'a' ≤ c ∧ c ≤ 'f' then some (c.toNat - 87)
  else if 'A' ≤ c ∧ c ≤ 'F' then some (c.toNat - 55)
  else none

/-- `parseInt(s, 16)`: leading white space, an optional sign, an optional
`0x`/`0X`, then the longest run of hex digits; `none` models `NaN`. -/
def jsParseIntHex (s : List Char) : Option Int :=
  let cs := s.dropWhile isJsSpace
  let sign : Int := if cs.head? = some '-' then -1 else 1
  let cs := if cs.head? = some '-' ∨ cs.head? = some '+' then cs.drop 1 else cs
  let cs := match cs with
    | '0' :: c :: rest => if c = 'x' ∨ c = 'X' then rest else cs
    | _ => cs
  let digits := cs.takeWhile (fun c => (hexDigitVal c).isSome)
  if digits.isEmpty then none
  else some (sign * (digits.foldl (fun acc c => acc * 16 + ((hexDigitVal c).getD 0)) 0 : Nat))

/-- `str.lastIndexOf(ch)` (−1 when absent). -/
def lastIndexOf (s : List Char) (ch : Char) : Int :=
  match (s.reverse.findIdx? (fun c => c = ch)) with
  | some i => (s.length : Int) - 1 - i
  | none => -1

/-- `str.slice(a)` for a non-negative start. -/
def jsSliceStrFrom (s : List Char) (a : Nat) : List Char :=
  s.drop a

/-- `str.slice(0, e)` where `e` may be negative (counted from the end). -/
def jsSliceStrTo (s : List Char) (e : Int) : List Char :=
  s.take (if e < 0 then ((s.length : Int) + e).toNat else e.toNat)

/-- Helper: JavaScript numbers in `parseIPv6` may be negative
(`parseInt("-1", 16)`); convert through ToUint32 ∘ ToInt32 semantics for
the bitwise ops `(w >> 8) & 0xff` and `w & 0xff`. -/
def intToInt32 (w : Int) : Int :=
  ((w % 4294967296 + 4294967296) % 4294967296 : Int) -
    (if (w % 4294967296 + 4294967296) % 4294967296 < 2147483648 then 0 else 4294967296)

def hiByte (w : Int) : Nat := (((intToInt32 w).fdiv 256).emod 256).toNat

def loByte (w : Int) : Nat := ((intToInt32 w).emod 256).toNat

/-- `parseIPv6(str)`. -/
def parseIPv6 (str : List Char) : Option (List Nat) :=
  let lastColon := lastIndexOf str ':'
  let lastDot := lastIndexOf str '.'
  let v4 : Option (Option (List Nat)) :=
    if lastDot > lastColon then
      match parseIPv4 (jsSliceStrFrom str (lastColon + 1).toNat) with
      | none => none
      | some b => some (some b)
    else some none
  match v4 with
  | none => none
  | some v4bytes =>
    let main := if lastDot > lastColon then jsSliceStrTo str lastColon else str
    let parts := jsSplitColonColon main
    if parts.length > 2 then none
    else
      let left := if parts.getD 0 [] ≠ [] then ((jsSplitChar ':' (parts.getD 0 []))).filter (fun h => h ≠ []) else []
      let right := if parts.getD 1 [] ≠ [] then ((jsSplitChar ':' (parts.getD 1 []))).filter (fun h => h ≠ []) else []
      let leftVals := left.map jsParseIntHex
      let rightVals := right.map jsParseIntHex
      if leftVals.any Option.isNone ∨ rightVals.any Option.isNone then none
      else
        let leftVals := leftVals.map (fun v => v.getD 0)
        let rightVals := rightVals.map (fun v => v.getD 0)
        let missing : Int := 8 - ((leftVals.length : Int) + rightVals.length +
          (if v4bytes.isSome then 2 else 0))
        if missing < 0 then none
        else
          let words : List Int := leftVals ++ List.replicate missing.toNat 0 ++ rightVals
          let words : List Int := match v4bytes with
            | some b =>
              words.dropLast ++
                [(jsGet b 0 * 256 + jsGet b 1 : Int), (jsGet b 2 * 256 + jsGet b 3 : Int)]
            | none => words
          if words.length ≠ 8 then none
          else some (words.flatMap (fun w => [hiByte w, loByte w]))

/-- `parseIp(str)`. -/
def parseIp (str : List Char) : Option IpAddr :=
  if str = [] then none
  else if str.contains ':' then
    match parseIPv6 str with
    | none => none
    | some bytes => some { family := 2, bytes := bytes }
  else
    match parseIPv4 str with
    | none => none
    | some bytes => some { family := 1, bytes := bytes }

/-- `injectECS(buf, clientIp, cfg)`; the client IP string is a character
list, empty exactly when the JavaScript string is falsy. -/
def injectECS (buf : List Nat) (clientIp : List Char) (cfg : Cfg) : List Nat :=
  if clientIp = [] then buf
  else
    match parseIp clientIp with
    | none => buf
    | some ip =>
      let family := ip.family
      let srcPrefix := if family = 1 then cfg.ECS_V4_PREFIX else cfg.ECS_V6_PREFIX
      let s := findSections buf
      let addRecs := parseAdditionalRecords buf s.additionalStart s.ar
      let ecsOpt := buildEcsOption ip.bytes family srcPrefix
      match addRecs.find? (fun r => r.type = 41) with
      | some recd =>
        let options := parseOptions buf recd.rdataStart recd.rdataEnd
        let newRdata := options.flatten ++ ecsOpt
        let rdlenOffset := recd.nameEnd + 8
        let head := jsSlice buf 0 rdlenOffset
        let newRdlen := writeU16BE newRdata.length
        let suffix := buf.drop recd.rdataEnd
        head ++ newRdlen ++ newRdata ++ suffix
      | none =>
        let arCount := readU16 buf 10
        let optRecord := [0] ++ writeU16BE 41 ++ writeU16BE 4096 ++ [0, 0, 0, 0] ++
          writeU16BE ecsOpt.length ++ ecsOpt
        let newAR := arCount + 1
        (((buf ++ optRecord).set 10 ((newAR >>> 8) &&& 0xff)).set 11 (newAR &&& 0xff))

/-!
## A structured model of well-formed DNS wire messages

`injectECS` consumes raw bytes.  To quantify over "every well-formed
message" we build messages from structured parts and serialize them to
bytes exactly as RFC 1035 lays them out; the well-formedness predicates
state the field bounds the wire format imposes.
-/

/-- The end of an encoded name: a zero octet or a 2-byte compression
pointer. -/
inductive NameEnd where
  | zero : NameEnd
  | ptr (hi lo : Nat) : NameEnd
deriving Repr, DecidableEq

structure DName where
  labels : List (List Nat)
  ending : NameEnd
deriving Repr, DecidableEq

def encodeEnd : NameEnd → List Nat
  | NameEnd.zero => [0]
  | NameEnd.ptr hi lo => [hi, lo]

def encodeName (n : DName) : List Nat :=
  (n.labels.map (fun l => l.length :: l)).flatten ++ encodeEnd n.ending

structure Question where
  name : DName
  qtype : Nat
  qclass : Nat
deriving Repr, DecidableEq

def encodeQuestion (q : Question) : List Nat :=
  encodeName q.name ++ writeU16BE q.qtype ++ writeU16BE q.qclass

def writeU32BE (v : Nat) : List Nat :=
  [v / 16777216 % 256, v / 65536 % 256, v / 256 % 256, v % 256]

structure RR where
  name : DName
  rtype : Nat
  rclass : Nat
  ttl : Nat
  rdata : List Nat
deriving Repr, DecidableEq

def encodeRR (r : RR) : List Nat :=
  encodeName r.name ++ writeU16BE r.rtype ++ writeU16BE r.rclass ++
    writeU32BE r.ttl ++ writeU16BE r.rdata.length ++ r.rdata

structure Msg where
  tid : Nat
  flags : Nat
  questions : List Question
  answers : List RR
  authority : List RR
  additional : List RR
deriving Repr, DecidableEq

def questionBytes (m : Msg) : List Nat := (m.questions.map encodeQuestion).flatten
def answerBytes (m : Msg) : List Nat := (m.answers.map encodeRR).flatten
def authorityBytes (m : Msg) : List Nat := (m.authority.map encodeRR).flatten
def additionalBytes (m : Msg) : List Nat := (m.additional.map encodeRR).flatten

def serialize (m : Msg) : List Nat :=
  writeU16BE m.tid ++ writeU16BE m.flags ++
  writeU16BE m.questions.length ++ writeU16BE m.answers.length ++
  writeU16BE m.authority.length ++ writeU16BE m.additional.length ++
  questionBytes m ++ answerBytes m ++ authorityBytes m ++ additionalBytes m

/-- A label: 1–63 content bytes (so its length octet is neither zero nor
has the two top pointer bits). -/
def ValidLabel (l : List Nat) : Prop :=
  1 ≤ l.length ∧ l.length ≤ 63 ∧ ∀ b ∈ l, b < 256

def ValidEnd (e : NameEnd) : Prop :=
  match e with
  | NameEnd.zero => True
  | NameEnd.ptr hi lo => hi &&& 192 = 192 ∧ hi < 256 ∧ lo < 256

instance : (e : NameEnd) → Decidable (ValidEnd e)
  | NameEnd.zero => Decidable.isTrue trivial
  | NameEnd.ptr _hi _lo => inferInstanceAs (Decidable (_ ∧ _ ∧ _))

def ValidName (n : DName) : Prop :=
  (∀ l ∈ n.labels, ValidLabel l) ∧ ValidEnd n.ending

def ValidQuestion (q : Question) : Prop :=
  ValidName q.name ∧ q.qtype < 65536 ∧ q.qclass < 65536

def ValidRR (r : RR) : Prop :=
  ValidName r.name ∧ r.rtype < 65536 ∧ r.rclass < 65536 ∧ r.ttl < 4294967296 ∧
    r.rdata.length < 65536 ∧ ∀ b ∈ r.rdata, b < 256

def Structured (m : Msg) : Prop :=
  m.tid < 65536 ∧ m.flags < 65536 ∧
  m.questions.length < 65536 ∧ m.answers.length < 65536 ∧
  m.authority.length < 65536 ∧ m.additional.length < 65536 ∧
  (∀ q ∈ m.questions, ValidQuestion q) ∧
  (∀ r ∈ m.answers, ValidRR r) ∧ (∀ r ∈ m.authority, ValidRR r) ∧
  (∀ r ∈ m.additional, ValidRR r)

/-- A well-formed DNS query: structurally valid, carries at least one
question (every DNS query does), and fits the 16-bit size limit that
bounds every DNS wire message. -/
def WellFormedQuery (m : Msg) : Prop :=
  Structured m ∧ 1 ≤ m.questions.length ∧ (serialize m).length ≤ 65535

/-- Valid prefix-length configuration (spec section 7: prefix lengths
outside the family's range are a caller validation responsibility). -/
def ValidCfg (cfg : Cfg) : Prop :=
  cfg.ECS_V4_PREFIX ≤ 32 ∧ cfg.ECS_V6_PREFIX ≤ 128

/-- An option of an OPT record's rdata, for structuring OPT rdata. -/
structure EOpt where
  code : Nat
  data : List Nat
deriving Repr, DecidableEq

def encodeOpt (o : EOpt) : List Nat :=
  writeU16BE o.code ++ writeU16BE o.data.length ++ o.data

def ValidOpt (o : EOpt) : Prop :=
  o.code < 65536 ∧ o.data.length < 65536 ∧ ∀ b ∈ o.data, b < 256

/-- A byte tail at which the option-scanning loop of `injectECS` stops:
it is too short to hold an option header, or its declared option length
overruns the remaining bytes. -/
def StopsScan (g : List Nat) : Prop :=
  g.length < 4 ∨ 4 + (jsGet g 2 * 256 + jsGet g 3) > g.length

/-- The record span the scanner computes for an additional record `r`
serialized at offset `off`. -/
def mkSpan (off : Nat) (r : RR) : RRSpan :=
  { nameStart := off
    nameEnd := off + (encodeName r.name).length
    type := r.rtype
    klass := r.rclass
    ttl := toInt32 r.ttl
    rdlen := r.rdata.length
    rdataStart := off + (encodeName r.name).length + 10
    rdataEnd := off + (encodeRR r).length }

def spansOf (off : Nat) : List RR → List RRSpan
  | [] => []
  | r :: rs => mkSpan off r :: spansOf (off + (encodeRR r).length) rs

def additionalStartOf (m : Msg) : Nat :=
  12 + (questionBytes m).length + (answerBytes m).length + (authorityBytes m).length

/-- Offset of the first-found OPT record when `rs1` precedes it in the
Additional section. -/
def optOffset (m : Msg) (rs1 : List RR) : Nat :=
  additionalStartOf m + ((rs1.map encodeRR).flatten).length

def rdlenOffsetOf (m : Msg) (rs1 : List RR) (opt : RR) : Nat :=
  optOffset m rs1 + (encodeName opt.name).length + 8

def rdataStartOf (m : Msg) (rs1 : List RR) (opt : RR) : Nat :=
  optOffset m rs1 + (encodeName opt.name).length + 10

def rdataEndOf (m : Msg) (rs1 : List RR) (opt : RR) : Nat :=
  optOffset m rs1 + (encodeRR opt).length

/-- The ECS option `injectECS` builds for a parsed client address under
configuration `cfg`. -/
def ecsFor (ipv : IpAddr) (cfg : Cfg) : List Nat :=
  buildEcsOption ipv.bytes ipv.family
    (if ipv.family = 1 then cfg.ECS_V4_PREFIX else cfg.ECS_V6_PREFIX)

/-- The rewritten OPT rdata in the OPT-present branch of `injectECS`. -/
def newRdataFor (m : Msg) (rs1 : List RR) (opt : RR) (ipv : IpAddr) (cfg : Cfg) : List Nat :=
  (parseOptions (serialize m) (rdataStartOf m rs1 opt) (rdataEndOf m rs1 opt)).flatten ++
    ecsFor ipv cfg

/-- The fresh OPT record appended in the no-OPT branch of `injectECS`. -/
def newOptRecord (ecsOpt : List Nat) : List Nat :=
  [0] ++ writeU16BE 41 ++ writeU16BE 4096 ++ [0, 0, 0, 0] ++
    writeU16BE ecsOpt.length ++ ecsOpt

/-- The structured form of the freshly appended OPT record. -/
def newRRFor (ipv : IpAddr) (cfg : Cfg) : RR :=
  { name := { labels := [], ending := NameEnd.zero }, rtype := 41, rclass := 4096,
    ttl := 0, rdata := ecsFor ipv cfg }

/-- A record with its rdata replaced. -/
def replaceRdata (r : RR) (d : List Nat) : RR :=
  { r with rdata := d }

/-- A message with its Additional section replaced. -/
def msgWithAdd (m : Msg) (rs : List RR) : Msg :=
  { m with additional := rs }

/-!
## Concrete inputs used by the closed theorems
-/

/-- `DEFAULTS`: v4 prefix 24, v6 prefix 56. -/
def defaultCfg : Cfg := { ECS_V4_PREFIX := 24, ECS_V6_PREFIX := 56 }

def clientIp203 : List Char := ['2','0','3','.','0','.','1','1','3','.','7']

def clientIpBad : List Char := ['3','0','0','.','1','.','2','.','3']

def clientIp1234 : List Char := ['1','.','2','.','3','.','4']

/-- Minimal query for `example.com` A record: header with QDCOUNT=1 and
ARCOUNT=0, one question, no other records. -/
def exampleQuery : List Nat :=
  [0,0, 1,0, 0,1, 0,0, 0,0, 0,0,
   7,101,120,97,109,112,108,101, 3,99,111,109, 0, 0,1, 0,1]

/-- What `injectECS` produces for `exampleQuery` with client
`203.0.113.7` and the default configuration: ARCOUNT set to 1 and a
23-byte OPT record appended whose 11-byte rdata carries the ECS option
with three address bytes. -/
def c1Output : List Nat :=
  [0,0, 1,0, 0,1, 0,0, 0,0, 0,1,
   7,101,120,97,109,112,108,101, 3,99,111,109, 0, 0,1, 0,1,
   0, 0,41, 16,0, 0,0,0,0, 0,11, 0,8,0,7,0,1,24,0,203,0,113]

/-- A message whose OPT record's rdata declares an option of length 99
inside a 6-byte rdata: the declared OPTION-LENGTH overruns RDLENGTH. -/
def c6Msg : List Nat :=
  [0,0, 0,0, 0,0, 0,0, 0,0, 0,1,
   0, 0,41, 16,0, 0,0,0,0, 0,6, 0,10, 0,99, 0,0]

/-- What `injectECS` produces for `c6Msg`: the overrunning option and
the bytes after it are dropped and the fresh ECS option becomes the
whole rdata. -/
def c6Output : List Nat :=
  [0,0, 0,0, 0,0, 0,0, 0,0, 0,1,
   0, 0,41, 16,0, 0,0,0,0, 0,11, 0,8,0,7,0,1,24,0,203,0,113]

/-- The parsed form of `203.0.113.7`. -/
def ipv203 : IpAddr := { family := 1, bytes := [203, 0, 113, 7] }

/-- The name `example.com`. -/
def exName : DName :=
  { labels := [[101, 120, 97, 109, 112, 108, 101], [99, 111, 109]], ending := NameEnd.zero }

def qExample : Question := { name := exName, qtype := 1, qclass := 1 }

/-- The root name (a single zero octet). -/
def rootName : DName := { labels := [], ending := NameEnd.zero }

/-- A structured message whose serialization is `exampleQuery`. -/
def mQueryW : Msg :=
  { tid := 0, flags := 256, questions := [qExample],
    answers := [], authority := [], additional := [] }

/-- An OPT record holding one non-ECS option (code 10, one data byte). -/
def optW : RR :=
  { name := rootName, rtype := 41, rclass := 4096, ttl := 0, rdata := [0, 10, 0, 1, 7] }

/-- A query that already carries `optW` in its Additional section. -/
def mOptW : Msg :=
  { tid := 0, flags := 256, questions := [qExample],
    answers := [], authority := [], additional := [optW] }

/-- An OPT record holding one ECS option (code 8) and one non-ECS
option (code 10). -/
def optEcsW : RR :=
  { name := rootName, rtype := 41, rclass := 4096, ttl := 0,
    rdata := [0, 8, 0, 4, 0, 1, 16, 0, 0, 10, 0, 1, 7] }

def mEcsW : Msg :=
  { tid := 0, flags := 256, questions := [qExample],
    answers := [], authority := [], additional := [optEcsW] }

/-- An OPT record whose rdata holds one complete option and then an
option header declaring length 99, which overruns the rdata. -/
def optOverW : RR :=
  { name := rootName, rtype := 41, rclass := 4096, ttl := 0,
    rdata := [0, 10, 0, 1, 7, 0, 12, 0, 99] }

def mOverW : Msg :=
  { tid := 0, flags := 256, questions := [qExample],
    answers := [], authority := [], additional := [optOverW] }

instance (l : List Nat) : Decidable (ValidLabel l) := by
  unfold ValidLabel; infer_instance

instance (n : DName) : Decidable (ValidName n) := by
  unfold ValidName; infer_instance

instance (q : Question) : Decidable (ValidQuestion q) := by
  unfold ValidQuestion; infer_instance

instance (r : RR) : Decidable (ValidRR r) := by
  unfold ValidRR; infer_instance

instance (m : Msg) : Decidable (Structured m) := by
  unfold Structured; infer_instance

instance (m : Msg) : Decidable (WellFormedQuery m) := by
  unfold WellFormedQuery; infer_instance

instance (cfg : Cfg) : Decidable (ValidCfg cfg) := by
  unfold ValidCfg; infer_instance

instance (o : EOpt) : Decidable (ValidOpt o) := by
  unfold ValidOpt; infer_instance

instance (g : List Nat) : Decidable (StopsScan g) := by
  unfold StopsScan; infer_instance

/-!
## Byte-level bridging lemmas
-/

theorem and255_eq_mod (v : Nat) : v &&& 255 = v % 256 := by
  simpa using Nat.and_pow_two_sub_one_eq_mod v 8

theorem shr8_eq_div (v : Nat) : v >>> 8 = v / 256 := by
  simpa using Nat.shiftRight_eq_div_pow v 8

theorem writeU16BE_eq_digits (v : Nat) : writeU16BE v = [v / 256 % 256, v % 256] := by
  unfold writeU16BE
  rw [and255_eq_mod, shr8_eq_div]

theorem length_writeU16BE (v : Nat) : (writeU16BE v).length = 2 := rfl

theorem jsGet_oob (buf : List Nat) (i : Nat) (h : buf.length ≤ i) : jsGet buf i = 0 :=
  List.getD_eq_default _ _ h

theorem jsGet_append_lt (l l2 : List Nat) (i : Nat) (h : i < l.length) :
    jsGet (l ++ l2) i = jsGet l i :=
  List.getD_append _ _ _ _ h

theorem jsGet_append_ge (l l2 : List Nat) (i : Nat) (h : l.length ≤ i) :
    jsGet (l ++ l2) i = jsGet l2 (i - l.length) :=
  List.getD_append_right _ _ _ _ h

theorem readU16_oob (buf : List Nat) (off : Nat) (h : buf.length ≤ off) :
    readU16 buf off = 0 := by
  unfold readU16
  rw [jsGet_oob _ _ h, jsGet_oob _ _ (by omega)]

/-- Reading a 16-bit field exactly where `writeU16BE` put it. -/
theorem readU16_at (pre rest : List Nat) (v : Nat) (hv : v < 65536) :
    readU16 (pre ++ writeU16BE v ++ rest) pre.length = v := by
  have h1 : jsGet (pre ++ writeU16BE v ++ rest) pre.length = v / 256 % 256 := by
    rw [List.append_assoc, jsGet_append_ge _ _ _ (le_refl _), Nat.sub_self,
      writeU16BE_eq_digits]
    rfl
  have h2 : jsGet (pre ++ writeU16BE v ++ rest) (pre.length + 1) = v % 256 := by
    rw [List.append_assoc, jsGet_append_ge _ _ _ (by omega), writeU16BE_eq_digits]
    have he : pre.length + 1 - pre.length = 1 := by omega
    rw [he]
    rfl
  unfold readU16
  rw [h1, h2]
  omega

/-!
## The loop bounds are fuel-irrelevant

`skipNameAux` and `parseOptionsAux` compute the same value under any
sufficient iteration bound, which recovers the defining equations of the
two `while` loops.
-/

theorem skipNameAux_oob (buf : List Nat) (f o : Nat) (h : buf.length ≤ o) :
    skipNameAux buf f o = o := by
  cases f with
  | zero => rfl
  | succ k =>
    simp only [skipNameAux]
    rw [if_neg (by omega)]

theorem skipNameAux_fuel (buf : List Nat) (f1 : Nat) :
    ∀ f2 o, buf.length - o ≤ f1 → buf.length - o ≤ f2 →
      skipNameAux buf f1 o = skipNameAux buf f2 o := by
  induction f1 with
  | zero =>
    intro f2 o h1 _h2
    rw [skipNameAux_oob _ _ _ (by omega), skipNameAux_oob _ _ _ (by omega)]
  | succ k ih =>
    intro f2 o h1 h2
    by_cases ho : o < buf.length
    · cases f2 with
      | zero => omega
      | succ g =>
        simp only [skipNameAux]
        rw [if_pos ho, if_pos ho]
        by_cases h0 : jsGet buf o = 0
        · simp [h0]
        · by_cases hp : jsGet buf o &&& 0xc0 = 0xc0
          · simp [h0, hp]
          · simp only [if_neg h0, if_neg hp]
            exact ih g (o + 1 + jsGet buf o) (by omega) (by omega)
    · rw [skipNameAux_oob _ _ _ (by omega), skipNameAux_oob _ _ _ (by omega)]

/-- The defining equation of the `skipName` loop. -/
theorem skipName_unfold (buf : List Nat) (o : Nat) :
    skipName buf o =
      if o < buf.length then
        (if jsGet buf o = 0 then o + 1
         else if jsGet buf o &&& 0xc0 = 0xc0 then o + 2
         else skipName buf (o + 1 + jsGet buf o))
      else o := by
  by_cases ho : o < buf.length
  · rw [if_pos ho]
    unfold skipName
    have h1 : buf.length - o = (buf.length - o - 1) + 1 := by omega
    rw [h1]
    simp only [skipNameAux]
    rw [if_pos ho]
    by_cases h0 : jsGet buf o = 0
    · simp [h0]
    · by_cases hp : jsGet buf o &&& 0xc0 = 0xc0
      · simp [h0, hp]
      · simp only [if_neg h0, if_neg hp]
        exact skipNameAux_fuel buf _ _ _ (by omega) (by omega)
  · rw [if_neg ho]
    unfold skipName
    exact skipNameAux_oob _ _ _ (by omega)

theorem parseOptionsAux_oob (buf : List Nat) (f p e : Nat) (h : ¬(p + 4 ≤ e)) :
    parseOptionsAux buf f p e = [] := by
  cases f with
  | zero => rfl
  | succ k =>
    simp only [parseOptionsAux]
    rw [if_neg h]

theorem parseOptionsAux_fuel (buf : List Nat) (f1 : Nat) :
    ∀ f2 p e, e - p ≤ f1 → e - p ≤ f2 →
      parseOptionsAux buf f1 p e = parseOptionsAux buf f2 p e := by
  induction f1 with
  | zero =>
    intro f2 p e h1 _h2
    rw [parseOptionsAux_oob _ _ _ _ (by omega), parseOptionsAux_oob _ _ _ _ (by omega)]
  | succ k ih =>
    intro f2 p e h1 h2
    by_cases hin : p + 4 ≤ e
    · cases f2 with
      | zero => omega
      | succ g =>
        simp only [parseOptionsAux]
        rw [if_pos hin, if_pos hin]
        by_cases hov : p + 4 + readU16 buf (p + 2) > e
        · simp [hov]
        · by_cases hc : readU16 buf p ≠ 8
          · simp only [if_neg hov, if_pos hc]
            rw [ih g (p + 4 + readU16 buf (p + 2)) e (by omega) (by omega)]
          · simp only [if_neg hov, if_neg hc]
            exact ih g (p + 4 + readU16 buf (p + 2)) e (by omega) (by omega)
    · rw [parseOptionsAux_oob _ _ _ _ hin, parseOptionsAux_oob _ _ _ _ hin]

/-- The defining equation of the option-scanning loop. -/
theorem parseOptions_unfold (buf : List Nat) (p e : Nat) :
    parseOptions buf p e =
      if p + 4 ≤ e then
        (if p + 4 + readU16 buf (p + 2) > e then []
         else if readU16 buf p ≠ 8 then
           jsSlice buf p (p + 4 + readU16 buf (p + 2)) ::
             parseOptions buf (p + 4 + readU16 buf (p + 2)) e
         else parseOptions buf (p + 4 + readU16 buf (p + 2)) e)
      else [] := by
  by_cases hin : p + 4 ≤ e
  · rw [if_pos hin]
    unfold parseOptions
    have h1 : e - p = (e - p - 1) + 1 := by omega
    rw [h1]
    simp only [parseOptionsAux]
    rw [if_pos hin]
    by_cases hov : p + 4 + readU16 buf (p + 2) > e
    · simp [hov]
    · by_cases hc : readU16 buf p ≠ 8
      · simp only [if_neg hov, if_pos hc]
        rw [parseOptionsAux_fuel buf (e - p - 1)
          (e - (p + 4 + readU16 buf (p + 2))) (p + 4 + readU16 buf (p + 2)) e
          (by omega) (by omega)]
      · simp only [if_neg hov, if_neg hc]
        exact parseOptionsAux_fuel buf (e - p - 1)
          (e - (p + 4 + readU16 buf (p + 2))) (p + 4 + readU16 buf (p + 2)) e
          (by omega) (by omega)
  · rw [if_neg hin]
    unfold parseOptions
    exact parseOptionsAux_oob _ _ _ _ hin

/-!
## Behaviour of the section walker past the end of the buffer

With fewer than 12 header bytes every section offset is at or past the
end of the buffer, all out-of-range reads give 0, and no OPT record can
be found.
-/

theorem skipName_oob (buf : List Nat) (o : Nat) (h : buf.length ≤ o) :
    skipName buf o = o := by
  unfold skipName
  exact skipNameAux_oob _ _ _ h

theorem skipQuestion_oob (buf : List Nat) (o : Nat) (h : buf.length ≤ o) :
    skipQuestion buf o = o + 4 := by
  unfold skipQuestion
  rw [skipName_oob _ _ h]

theorem skipRR_oob (buf : List Nat) (o : Nat) (h : buf.length ≤ o) :
    skipRR buf o = o + 10 := by
  unfold skipRR
  rw [skipName_oob _ _ h]
  show o + 10 + readU16 buf (o + 8) = o + 10
  rw [readU16_oob _ _ (by omega)]

theorem skipN_skipQuestion_oob (buf : List Nat) (n o : Nat) (h : buf.length ≤ o) :
    buf.length ≤ skipN skipQuestion buf n o := by
  induction n generalizing o with
  | zero => exact h
  | succ k ih =>
    show buf.length ≤ skipN skipQuestion buf k (skipQuestion buf o)
    exact ih _ (by rw [skipQuestion_oob buf o h]; omega)

theorem skipN_skipRR_oob (buf : List Nat) (n o : Nat) (h : buf.length ≤ o) :
    buf.length ≤ skipN skipRR buf n o := by
  induction n generalizing o with
  | zero => exact h
  | succ k ih =>
    show buf.length ≤ skipN skipRR buf k (skipRR buf o)
    exact ih _ (by rw [skipRR_oob buf o h]; omega)

theorem parseAdd_find_oob (buf : List Nat) (n o : Nat) (h : buf.length ≤ o) :
    (parseAdditionalRecords buf o n).find? (fun r => r.type = 41) = none := by
  induction n generalizing o with
  | zero => rfl
  | succ k ih =>
    rw [parseAdditionalRecords]
    rw [List.find?_cons_of_neg, ih]
    · rw [skipName_oob _ _ h, readU16_oob _ _ (by omega)]
      omega
    · simp only [skipName_oob _ _ h, readU16_oob _ _ h]
      decide

theorem findSections_additionalStart_oob (buf : List Nat) (h : buf.length ≤ 12) :
    buf.length ≤ (findSections buf).additionalStart := by
  unfold findSections
  exact skipN_skipRR_oob _ _ _ (skipN_skipRR_oob _ _ _ (skipN_skipQuestion_oob _ _ _ h))

/-- C1 counterexample: in the spec's end-to-end scenario (minimal
`example.com` A query, client `203.0.113.7`, v4 prefix 24) the appended
OPT record's rdata is not the claimed 12-byte sequence
`00 08 00 07 00 01 18 00 CB 00 71 00`: the code emits only
`ceil(24/8) = 3` address bytes, so the rdata is 11 bytes long and the
output message ends 11 bytes after the RDLENGTH field. -/
theorem C1_counterexample :
    (injectECS exampleQuery clientIp203 defaultCfg).length = 51 ∧
    (injectECS exampleQuery clientIp203 defaultCfg).drop 40 ≠
      [0x00, 0x08, 0x00, 0x07, 0x00, 0x01, 0x18, 0x00, 0xCB, 0x00, 0x71, 0x00] := by
  decide

/-- C1 (amended): for the minimal `example.com` A query with no OPT
record, client IP `203.0.113.7` and v4 prefix 24, `injectECS` returns a
message with ARCOUNT 1 and exactly one new OPT record appended at the
tail, whose rdata is the 11-byte ECS option
`00 08 00 07 00 01 18 00 CB 00 71`
(family 1, source prefix 24, scope 0, address bytes `203.0.113`). -/
theorem C1_end_to_end :
    injectECS exampleQuery clientIp203 defaultCfg = c1Output ∧
    readU16 c1Output 10 = 1 ∧
    c1Output = exampleQuery.set 11 1 ++ newOptRecord (buildEcsOption [203, 0, 113, 7] 1 24) ∧
    (newOptRecord (buildEcsOption [203, 0, 113, 7] 1 24)).drop 11 =
      [0x00, 0x08, 0x00, 0x07, 0x00, 0x01, 0x18, 0x00, 0xCB, 0x00, 0x71] := by
  decide

/-- C2 counterexample: the empty buffer is shorter than 12 bytes, yet
with the parseable client IP `1.2.3.4` the engine does not return it
unchanged (it appends a fresh OPT record). -/
theorem C2_counterexample :
    ([] : List Nat).length < 12 ∧ injectECS [] clientIp1234 defaultCfg ≠ [] := by
  decide

/-- C2 (amended): for every buffer shorter than 12 bytes, `injectECS`
returns the buffer unchanged exactly when the client IP string is empty
or unparseable; for a parseable client IP it returns a modified (longer)
buffer instead — in no case an uncaught failure. -/
theorem C2_short_buffer (buf : List Nat) (ip : List Char) (cfg : Cfg)
    (h : buf.length < 12) :
    (injectECS buf ip cfg = buf ↔ parseIp ip = none) := by
  cases hp : parseIp ip with
  | none =>
    have hid : injectECS buf ip cfg = buf := by
      unfold injectECS
      rw [hp]
      split <;> rfl
    simp [hid, hp]
  | some v =>
    have hne : ip ≠ [] := by
      intro he
      rw [he] at hp
      simp [parseIp] at hp
    have hadd : buf.length ≤ (findSections buf).additionalStart :=
      findSections_additionalStart_oob buf (by omega)
    have hfind := parseAdd_find_oob buf (findSections buf).ar
      (findSections buf).additionalStart hadd
    constructor
    · intro heq
      exfalso
      simp only [injectECS, if_neg hne, hp, hfind] at heq
      have hlen := congrArg List.length heq
      simp only [List.length_set, List.length_append, length_writeU16BE,
        List.length_cons, List.length_nil] at hlen
      omega
    · intro hn
      exact absurd hn (by simp)

/-- Witness for C2 (amended) at the empty buffer and a parseable IP. -/
theorem C2_short_buffer_witness :
    ([] : List Nat).length < 12 ∧
    (injectECS [] clientIp1234 defaultCfg = [] ↔ parseIp clientIp1234 = none) :=
  ⟨by decide, C2_short_buffer [] clientIp1234 defaultCfg (by decide)⟩

set_option maxRecDepth 8192 in
/-- C6 counterexample: `c6Msg` contains an OPT record whose single
option declares OPTION-LENGTH 99 inside a 6-byte rdata; `injectECS` does
not return the message unchanged. -/
theorem C6_counterexample : injectECS c6Msg clientIp203 defaultCfg ≠ c6Msg := by
  decide

/-- C7: for every message and configuration, an unparseable client IP
string (the empty string included, since `parseIp` rejects it) makes
`injectECS` return the input byte-for-byte unchanged. -/
theorem C7_fail_open_unparseable_ip (buf : List Nat) (ip : List Char) (cfg : Cfg)
    (h : parseIp ip = none) : injectECS buf ip cfg = buf := by
  unfold injectECS
  rw [h]
  split <;> rfl

/-- Witness for C7 at the unparseable address `300.1.2.3`. -/
theorem C7_witness :
    parseIp clientIpBad = none ∧
    injectECS exampleQuery clientIpBad defaultCfg = exampleQuery :=
  ⟨by decide, C7_fail_open_unparseable_ip _ _ _ (by decide)⟩

/-!
## The ECS option builder (C5, C10)
-/

theorem length_ecsTrimmed (ipBytes : List Nat) (p : Nat) :
    (ecsTrimmed ipBytes p).length = (p + 7) / 8 := by
  simp only [ecsTrimmed]
  split <;> simp

theorem ecsTrimmed_getD (ipBytes : List Nat) (p i : Nat) (hi : i < (p + 7) / 8)
    (hno : p % 8 = 0 ∨ i + 1 < (p + 7) / 8) :
    (ecsTrimmed ipBytes p).getD i 0 = jsGet ipBytes i % 256 := by
  have hmap : ∀ j, j < (p + 7) / 8 →
      (((List.range ((p + 7) / 8)).map (fun k => jsGet ipBytes k % 256)).getD j 0) =
        jsGet ipBytes j % 256 := by
    intro j hj
    rw [List.getD_eq_getElem?_getD, List.getElem?_map, List.getElem?_range hj]
    rfl
  simp only [ecsTrimmed]
  split
  · next hcond =>
    have hne : (p + 7) / 8 - 1 ≠ i := by
      rcases hno with h0 | hlt
      · exact absurd h0 hcond.1
      · omega
    rw [List.getD_eq_getElem?_getD, List.getElem?_set_ne hne,
      ← List.getD_eq_getElem?_getD]
    exact hmap i hi
  · exact hmap i hi

theorem ecsTrimmed_getD_last (ipBytes : List Nat) (p : Nat) (hrem : p % 8 ≠ 0)
    (hpos : 0 < (p + 7) / 8) :
    (ecsTrimmed ipBytes p).getD ((p + 7) / 8 - 1) 0 =
      (jsGet ipBytes ((p + 7) / 8 - 1) % 256) &&& (255 <<< (8 - p % 8)) := by
  have hmap : (((List.range ((p + 7) / 8)).map (fun k => jsGet ipBytes k % 256)).getD
      ((p + 7) / 8 - 1) 0) = jsGet ipBytes ((p + 7) / 8 - 1) % 256 := by
    rw [List.getD_eq_getElem?_getD, List.getElem?_map, List.getElem?_range (by omega)]
    rfl
  simp only [ecsTrimmed]
  rw [if_pos ⟨hrem, hpos⟩]
  rw [List.getD_eq_getElem?_getD, List.getElem?_set_eq_of_lt _ (by simp; omega)]
  simp only [Option.getD_some]
  rw [hmap]

theorem buildEcsOption_eq (ipBytes : List Nat) (family p : Nat) :
    buildEcsOption ipBytes family p =
      writeU16BE 8 ++ writeU16BE (4 + (p + 7) / 8) ++
        (writeU16BE family ++ [p &&& 255, 0] ++ ecsTrimmed ipBytes p) := by
  simp only [buildEcsOption]
  have h : (writeU16BE family ++ [p &&& 255, 0] ++ ecsTrimmed ipBytes p).length =
      4 + (p + 7) / 8 := by
    simp [length_writeU16BE, length_ecsTrimmed]
    omega
  rw [h]

theorem length_buildEcsOption (ipBytes : List Nat) (family p : Nat) :
    (buildEcsOption ipBytes family p).length = 8 + (p + 7) / 8 := by
  rw [buildEcsOption_eq]
  simp [length_writeU16BE, length_ecsTrimmed]
  omega

theorem buildEcsOption_getD_addr (ipBytes : List Nat) (family p i : Nat) :
    (buildEcsOption ipBytes family p).getD (8 + i) 0 = (ecsTrimmed ipBytes p).getD i 0 := by
  rw [buildEcsOption_eq]
  have hassoc : writeU16BE 8 ++ writeU16BE (4 + (p + 7) / 8) ++
      (writeU16BE family ++ [p &&& 255, 0] ++ ecsTrimmed ipBytes p) =
      (writeU16BE 8 ++ writeU16BE (4 + (p + 7) / 8) ++ writeU16BE family ++
        [p &&& 255, 0]) ++ ecsTrimmed ipBytes p := by
    simp [List.append_assoc]
  rw [hassoc]
  have hlen : (writeU16BE 8 ++ writeU16BE (4 + (p + 7) / 8) ++ writeU16BE family ++
      [p &&& 255, 0]).length = 8 := by
    simp [length_writeU16BE]
  rw [List.getD_eq_getElem?_getD, List.getElem?_append_right (by omega),
    ← List.getD_eq_getElem?_getD, hlen]
  congr 1
  omega

/-- The general form of the option-length field read. -/
theorem readU16_at_mod (pre rest : List Nat) (v : Nat) :
    readU16 (pre ++ writeU16BE v ++ rest) pre.length = v % 65536 := by
  have h1 : jsGet (pre ++ writeU16BE v ++ rest) pre.length = v / 256 % 256 := by
    rw [List.append_assoc, jsGet_append_ge _ _ _ (le_refl _), Nat.sub_self,
      writeU16BE_eq_digits]
    rfl
  have h2 : jsGet (pre ++ writeU16BE v ++ rest) (pre.length + 1) = v % 256 := by
    rw [List.append_assoc, jsGet_append_ge _ _ _ (by omega), writeU16BE_eq_digits]
    have he : pre.length + 1 - pre.length = 1 := by omega
    rw [he]
    rfl
  unfold readU16
  rw [h1, h2]
  omega

/-- C5: `buildEcsOption` emits exactly `ceil(p / 8)` address bytes (the
whole option is `8 + ceil(p / 8)` bytes, so later input bytes are
discarded); each emitted byte is the corresponding input byte except
that, when `p` is not a multiple of 8, the last one is masked with
`0xff << (8 - p % 8)`; and the 16-bit option-length field holds exactly
the payload length `2 + 1 + 1 + n` (modulo the 16-bit field width, which
is no restriction whenever `4 + n < 65536`, in particular for every real
prefix length). -/
theorem C5_builder_shape (family p : Nat) (addr : List Nat) :
    (buildEcsOption addr family p).length = 8 + (p + 7) / 8 ∧
    readU16 (buildEcsOption addr family p) 2 = (4 + (p + 7) / 8) % 65536 ∧
    (4 + (p + 7) / 8 < 65536 → readU16 (buildEcsOption addr family p) 2 = 4 + (p + 7) / 8) ∧
    (∀ i, i < (p + 7) / 8 → (p % 8 = 0 ∨ i + 1 < (p + 7) / 8) →
      (buildEcsOption addr family p).getD (8 + i) 0 = jsGet addr i % 256) ∧
    (p % 8 ≠ 0 → 0 < (p + 7) / 8 →
      (buildEcsOption addr family p).getD (8 + ((p + 7) / 8 - 1)) 0 =
        (jsGet addr ((p + 7) / 8 - 1) % 256) &&& (255 <<< (8 - p % 8))) := by
  have hmod : readU16 (buildEcsOption addr family p) 2 = (4 + (p + 7) / 8) % 65536 := by
    rw [buildEcsOption_eq]
    have := readU16_at_mod (writeU16BE 8)
      (writeU16BE family ++ [p &&& 255, 0] ++ ecsTrimmed addr p) (4 + (p + 7) / 8)
    simpa [length_writeU16BE] using this
  refine ⟨length_buildEcsOption addr family p, hmod, ?_, ?_, ?_⟩
  · intro hlt
    rw [hmod]
    exact Nat.mod_eq_of_lt hlt
  · intro i hi hno
    rw [buildEcsOption_getD_addr]
    exact ecsTrimmed_getD addr p i hi hno
  · intro hrem hpos
    rw [buildEcsOption_getD_addr]
    exact ecsTrimmed_getD_last addr p hrem hpos

/-- Witness for C5 at family 1, prefix 20, address `1.2.3.4`: the option
is 11 bytes, its length field reads 7, the first two address bytes are
copied and the third is masked to high nibble only. -/
theorem C5_witness :
    (4 + (20 + 7) / 8 < 65536 ∧
      readU16 (buildEcsOption [1, 2, 3, 4] 1 20) 2 = 4 + (20 + 7) / 8) ∧
    (0 < (20 + 7) / 8 ∧ 0 + 1 < (20 + 7) / 8 ∧
      (buildEcsOption [1, 2, 3, 4] 1 20).getD (8 + 0) 0 = jsGet [1, 2, 3, 4] 0 % 256) ∧
    (20 % 8 ≠ 0 ∧ 0 < (20 + 7) / 8 ∧
      (buildEcsOption [1, 2, 3, 4] 1 20).getD (8 + ((20 + 7) / 8 - 1)) 0 =
        (jsGet [1, 2, 3, 4] ((20 + 7) / 8 - 1) % 256) &&& (255 <<< (8 - 20 % 8))) :=
  ⟨⟨by decide, (C5_builder_shape 1 20 [1, 2, 3, 4]).2.2.1 (by decide)⟩,
   ⟨by decide, by decide,
    (C5_builder_shape 1 20 [1, 2, 3, 4]).2.2.2.1 0 (by decide) (Or.inr (by decide))⟩,
   ⟨by decide, by decide,
    (C5_builder_shape 1 20 [1, 2, 3, 4]).2.2.2.2 (by decide) (by decide)⟩⟩

/-- C10: `buildEcsOption` is total for every prefix length and address
byte array; when the array holds fewer than `ceil(p / 8)` bytes each
missing position is emitted as a zero byte (`ipBytes[i] || 0`), also
under the final mask. -/
theorem C10_builder_zero_fill (family p : Nat) (addr : List Nat) :
    (buildEcsOption addr family p).length = 8 + (p + 7) / 8 ∧
    (∀ i, addr.length ≤ i → i < (p + 7) / 8 →
      (buildEcsOption addr family p).getD (8 + i) 0 = 0) := by
  refine ⟨length_buildEcsOption addr family p, ?_⟩
  intro i hoob hi
  rw [buildEcsOption_getD_addr]
  by_cases hlast : p % 8 ≠ 0 ∧ i = (p + 7) / 8 - 1
  · rw [hlast.2, ecsTrimmed_getD_last addr p hlast.1 (by omega)]
    rw [← hlast.2, jsGet_oob addr i hoob]
    simp [Nat.zero_and]
  · have hno : p % 8 = 0 ∨ i + 1 < (p + 7) / 8 := by
      by_cases h0 : p % 8 = 0
      · exact Or.inl h0
      · right
        have : i ≠ (p + 7) / 8 - 1 := fun he => hlast ⟨h0, he⟩
        omega
    rw [ecsTrimmed_getD addr p i hi hno, jsGet_oob addr i hoob]

/-- Witness for C10 with a two-byte array and prefix 32: byte positions
2 and 3 of the emitted address are zero-filled. -/
theorem C10_witness :
    ([1, 2] : List Nat).length ≤ 3 ∧ 3 < (32 + 7) / 8 ∧
    (buildEcsOption [1, 2] 1 32).getD (8 + 3) 0 = 0 :=
  ⟨by decide, by decide,
   (C10_builder_zero_fill 1 32 [1, 2]).2 3 (by decide) (by decide)⟩

/-!
## Walking serialized messages

The section walker, applied to the serialization of a structured
message, advances block by block: over a validly encoded name, then over
encoded questions and records, landing exactly at each boundary.
-/

theorem length_writeU32BE (v : Nat) : (writeU32BE v).length = 4 := rfl

theorem skipName_encode_labels (labels : List (List Nat)) (e : NameEnd) :
    ∀ (pre rest : List Nat), (∀ l ∈ labels, ValidLabel l) → ValidEnd e →
    skipName (pre ++ encodeName ⟨labels, e⟩ ++ rest) pre.length =
      pre.length + (encodeName ⟨labels, e⟩).length := by
  induction labels with
  | nil =>
    intro pre rest _hl he
    cases e with
    | zero =>
      rw [skipName_unfold]
      have hget : jsGet (pre ++ encodeName ⟨[], NameEnd.zero⟩ ++ rest) pre.length = 0 := by
        rw [List.append_assoc, jsGet_append_ge _ _ _ (le_refl _), Nat.sub_self]
        rfl
      rw [if_pos (by simp [encodeName, encodeEnd]), hget]
      simp [encodeName, encodeEnd]
    | ptr hi lo =>
      obtain ⟨hand, hhi, _hlo⟩ := he
      rw [skipName_unfold]
      have hget : jsGet (pre ++ encodeName ⟨[], NameEnd.ptr hi lo⟩ ++ rest) pre.length = hi := by
        rw [List.append_assoc, jsGet_append_ge _ _ _ (le_refl _), Nat.sub_self]
        rfl
      have hne : jsGet (pre ++ encodeName ⟨[], NameEnd.ptr hi lo⟩ ++ rest) pre.length ≠ 0 := by
        rw [hget]
        have hle : 192 ≤ hi := by
          have := Nat.and_le_left (n := hi) (m := 192)
          omega
        omega
      rw [if_pos (by simp [encodeName, encodeEnd]), if_neg hne, hget, if_pos hand]
      simp [encodeName, encodeEnd]
  | cons l ls ih =>
    intro pre rest hl he
    have hvl : ValidLabel l := hl l (by simp)
    have henc : encodeName ⟨l :: ls, e⟩ = (l.length :: l) ++ encodeName ⟨ls, e⟩ := by
      simp [encodeName]
    have hb : pre ++ encodeName ⟨l :: ls, e⟩ ++ rest =
        (pre ++ (l.length :: l)) ++ encodeName ⟨ls, e⟩ ++ rest := by
      rw [henc]
      simp [List.append_assoc]
    rw [hb, skipName_unfold]
    have hget : jsGet ((pre ++ (l.length :: l)) ++ encodeName ⟨ls, e⟩ ++ rest) pre.length
        = l.length := by
      rw [List.append_assoc, List.append_assoc, jsGet_append_ge _ _ _ (le_refl _),
        Nat.sub_self]
      rfl
    obtain ⟨h1, h63, _⟩ := hvl
    have hne : jsGet ((pre ++ (l.length :: l)) ++ encodeName ⟨ls, e⟩ ++ rest) pre.length ≠ 0 := by
      rw [hget]; omega
    have hnp : ¬(jsGet ((pre ++ (l.length :: l)) ++ encodeName ⟨ls, e⟩ ++ rest) pre.length
        &&& 0xc0 = 0xc0) := by
      rw [hget]
      have := Nat.and_le_left (n := l.length) (m := 0xc0)
      omega
    have hin : pre.length < ((pre ++ (l.length :: l)) ++ encodeName ⟨ls, e⟩ ++ rest).length := by
      simp
    rw [if_pos hin, if_neg hne, if_neg hnp, hget]
    have hstep : pre.length + 1 + l.length = (pre ++ (l.length :: l)).length := by
      simp; omega
    rw [hstep, ih (pre ++ (l.length :: l)) rest (fun x hx => hl x (by simp [hx])) he]
    rw [henc]
    simp
    omega

theorem skipName_encode (buf pre rest : List Nat) (n : DName) (hv : ValidName n)
    (hbuf : buf = pre ++ encodeName n ++ rest) :
    skipName buf pre.length = pre.length + (encodeName n).length := by
  subst hbuf
  obtain ⟨labels, e⟩ := n
  exact skipName_encode_labels labels e pre rest hv.1 hv.2

theorem skipQuestion_encode (buf pre rest : List Nat) (q : Question) (hq : ValidQuestion q)
    (hbuf : buf = pre ++ encodeQuestion q ++ rest) :
    skipQuestion buf pre.length = pre.length + (encodeQuestion q).length := by
  unfold skipQuestion
  rw [skipName_encode buf pre (writeU16BE q.qtype ++ writeU16BE q.qclass ++ rest) q.name hq.1
    (by rw [hbuf]; simp [encodeQuestion, List.append_assoc])]
  simp [encodeQuestion, length_writeU16BE]
  omega

theorem skipRR_encode (buf pre rest : List Nat) (r : RR) (hr : ValidRR r)
    (hbuf : buf = pre ++ encodeRR r ++ rest) :
    skipRR buf pre.length = pre.length + (encodeRR r).length := by
  unfold skipRR
  rw [skipName_encode buf pre
    (writeU16BE r.rtype ++ writeU16BE r.rclass ++ writeU32BE r.ttl ++
      writeU16BE r.rdata.length ++ r.rdata ++ rest) r.name hr.1
    (by rw [hbuf]; simp [encodeRR, List.append_assoc])]
  have hrd : readU16 buf (pre.length + (encodeName r.name).length + 8) = r.rdata.length := by
    have hpre : (pre ++ encodeName r.name ++ writeU16BE r.rtype ++ writeU16BE r.rclass ++
        writeU32BE r.ttl).length = pre.length + (encodeName r.name).length + 8 := by
      simp [length_writeU16BE, length_writeU32BE]
      omega
    have := readU16_at
      (pre ++ encodeName r.name ++ writeU16BE r.rtype ++ writeU16BE r.rclass ++
        writeU32BE r.ttl) (r.rdata ++ rest) r.rdata.length hr.2.2.2.2.1
    rw [hpre] at this
    rw [← this]
    congr 1
    rw [hbuf]
    simp [encodeRR, List.append_assoc]
  show pre.length + (encodeName r.name).length + 10 +
      readU16 buf (pre.length + (encodeName r.name).length + 8) = _
  rw [hrd]
  simp [encodeRR, length_writeU16BE, length_writeU32BE]
  omega

theorem skipN_questions (qs : List Question) :
    ∀ (buf pre rest : List Nat), (∀ q ∈ qs, ValidQuestion q) →
    buf = pre ++ (qs.map encodeQuestion).flatten ++ rest →
    skipN skipQuestion buf qs.length pre.length =
      pre.length + ((qs.map encodeQuestion).flatten).length := by
  induction qs with
  | nil =>
    intro buf pre rest _h _hbuf
    simp [skipN]
  | cons q qs ih =>
    intro buf pre rest h hbuf
    show skipN skipQuestion buf qs.length (skipQuestion buf pre.length) = _
    rw [skipQuestion_encode buf pre ((qs.map encodeQuestion).flatten ++ rest) q
      (h q (by simp)) (by rw [hbuf]; simp [List.append_assoc])]
    have hpre2 : pre.length + (encodeQuestion q).length = (pre ++ encodeQuestion q).length := by
      simp
    rw [hpre2, ih buf (pre ++ encodeQuestion q) rest (fun x hx => h x (by simp [hx]))
      (by rw [hbuf]; simp [List.append_assoc])]
    simp
    omega

theorem jsGet_at (pre xs rest : List Nat) (k : Nat) (hk : k < xs.length) :
    jsGet (pre ++ xs ++ rest) (pre.length + k) = jsGet xs k := by
  rw [List.append_assoc, jsGet_append_ge _ _ _ (by omega)]
  have he : pre.length + k - pre.length = k := by omega
  rw [he, jsGet_append_lt _ _ _ hk]

theorem readU32_at (pre rest : List Nat) (v : Nat) (hv : v < 4294967296) :
    readU32 (pre ++ writeU32BE v ++ rest) pre.length = toInt32 v := by
  unfold readU32
  have h0 := jsGet_at pre (writeU32BE v) rest 0 (by rw [length_writeU32BE]; omega)
  have h1 := jsGet_at pre (writeU32BE v) rest 1 (by rw [length_writeU32BE]; omega)
  have h2 := jsGet_at pre (writeU32BE v) rest 2 (by rw [length_writeU32BE]; omega)
  have h3 := jsGet_at pre (writeU32BE v) rest 3 (by rw [length_writeU32BE]; omega)
  rw [Nat.add_zero] at h0
  rw [h0, h1, h2, h3]
  have hd : jsGet (writeU32BE v) 0 * 16777216 + jsGet (writeU32BE v) 1 * 65536 +
      jsGet (writeU32BE v) 2 * 256 + jsGet (writeU32BE v) 3 = v := by
    show v / 16777216 % 256 * 16777216 + v / 65536 % 256 * 65536 +
      v / 256 % 256 * 256 + v % 256 = v
    omega
  rw [hd]

theorem skipN_rrs (rs : List RR) :
    ∀ (buf pre rest : List Nat), (∀ r ∈ rs, ValidRR r) →
    buf = pre ++ (rs.map encodeRR).flatten ++ rest →
    skipN skipRR buf rs.length pre.length =
      pre.length + ((rs.map encodeRR).flatten).length := by
  induction rs with
  | nil =>
    intro buf pre rest _h _hbuf
    simp [skipN]
  | cons r rs ih =>
    intro buf pre rest h hbuf
    show skipN skipRR buf rs.length (skipRR buf pre.length) = _
    rw [skipRR_encode buf pre ((rs.map encodeRR).flatten ++ rest) r
      (h r (by simp)) (by rw [hbuf]; simp [List.append_assoc])]
    have hpre2 : pre.length + (encodeRR r).length = (pre ++ encodeRR r).length := by
      simp
    rw [hpre2, ih buf (pre ++ encodeRR r) rest (fun x hx => h x (by simp [hx]))
      (by rw [hbuf]; simp [List.append_assoc])]
    simp
    omega

/-- The serialized header bytes. -/
theorem serialize_decomp (m : Msg) :
    serialize m =
      writeU16BE m.tid ++ writeU16BE m.flags ++ writeU16BE m.questions.length ++
        writeU16BE m.answers.length ++ writeU16BE m.authority.length ++
        writeU16BE m.additional.length ++ questionBytes m ++ answerBytes m ++
        authorityBytes m ++ additionalBytes m := rfl

theorem readU16_serialize_qd (m : Msg) (hm : Structured m) :
    readU16 (serialize m) 4 = m.questions.length := by
  have hl : (writeU16BE m.tid ++ writeU16BE m.flags).length = 4 := by
    simp [length_writeU16BE]
  have h :=
    readU16_at (writeU16BE m.tid ++ writeU16BE m.flags)
      (writeU16BE m.answers.length ++ writeU16BE m.authority.length ++
        writeU16BE m.additional.length ++ questionBytes m ++ answerBytes m ++
        authorityBytes m ++ additionalBytes m) m.questions.length hm.2.2.1
  rw [hl] at h
  rw [← h]
  congr 1

theorem readU16_serialize_an (m : Msg) (hm : Structured m) :
    readU16 (serialize m) 6 = m.answers.length := by
  have hl : (writeU16BE m.tid ++ writeU16BE m.flags ++
      writeU16BE m.questions.length).length = 6 := by
    simp [length_writeU16BE]
  have h :=
    readU16_at (writeU16BE m.tid ++ writeU16BE m.flags ++ writeU16BE m.questions.length)
      (writeU16BE m.authority.length ++ writeU16BE m.additional.length ++
        questionBytes m ++ answerBytes m ++ authorityBytes m ++ additionalBytes m)
      m.answers.length hm.2.2.2.1
  rw [hl] at h
  rw [← h]
  congr 1

theorem readU16_serialize_ns (m : Msg) (hm : Structured m) :
    readU16 (serialize m) 8 = m.authority.length := by
  have hl : (writeU16BE m.tid ++ writeU16BE m.flags ++ writeU16BE m.questions.length ++
      writeU16BE m.answers.length).length = 8 := by
    simp [length_writeU16BE]
  have h :=
    readU16_at (writeU16BE m.tid ++ writeU16BE m.flags ++ writeU16BE m.questions.length ++
        writeU16BE m.answers.length)
      (writeU16BE m.additional.length ++ questionBytes m ++ answerBytes m ++
        authorityBytes m ++ additionalBytes m)
      m.authority.length hm.2.2.2.2.1
  rw [hl] at h
  rw [← h]
  congr 1

theorem readU16_serialize_ar (m : Msg) (hm : Structured m) :
    readU16 (serialize m) 10 = m.additional.length := by
  have hl : (writeU16BE m.tid ++ writeU16BE m.flags ++ writeU16BE m.questions.length ++
      writeU16BE m.answers.length ++ writeU16BE m.authority.length).length = 10 := by
    simp [length_writeU16BE]
  have h :=
    readU16_at (writeU16BE m.tid ++ writeU16BE m.flags ++ writeU16BE m.questions.length ++
        writeU16BE m.answers.length ++ writeU16BE m.authority.length)
      (questionBytes m ++ answerBytes m ++ authorityBytes m ++ additionalBytes m)
      m.additional.length hm.2.2.2.2.2.1
  rw [hl] at h
  rw [← h]
  congr 1

/-- The serialized 12-byte header. -/
def header12 (m : Msg) : List Nat :=
  writeU16BE m.tid ++ writeU16BE m.flags ++ writeU16BE m.questions.length ++
    writeU16BE m.answers.length ++ writeU16BE m.authority.length ++
    writeU16BE m.additional.length

theorem length_header12 (m : Msg) : (header12 m).length = 12 := by
  simp [header12, length_writeU16BE]

theorem findSections_serialize (m : Msg) (hm : Structured m) :
    findSections (serialize m) =
      { qd := m.questions.length, an := m.answers.length, ns := m.authority.length,
        ar := m.additional.length, additionalStart := additionalStartOf m } := by
  have hq : skipN skipQuestion (serialize m) m.questions.length 12 =
      12 + (questionBytes m).length := by
    have h := skipN_questions m.questions (serialize m) (header12 m)
      (answerBytes m ++ authorityBytes m ++ additionalBytes m) hm.2.2.2.2.2.2.1
      (by rw [serialize_decomp]; simp [header12, questionBytes, List.append_assoc])
    rw [length_header12] at h
    exact h
  have ha : skipN skipRR (serialize m) m.answers.length (12 + (questionBytes m).length) =
      12 + (questionBytes m).length + (answerBytes m).length := by
    have h := skipN_rrs m.answers (serialize m) (header12 m ++ questionBytes m)
      (authorityBytes m ++ additionalBytes m) hm.2.2.2.2.2.2.2.1
      (by rw [serialize_decomp]; simp [header12, answerBytes, List.append_assoc])
    simp only [List.length_append, length_header12] at h
    exact h
  have hn : skipN skipRR (serialize m) m.authority.length
      (12 + (questionBytes m).length + (answerBytes m).length) =
      12 + (questionBytes m).length + (answerBytes m).length + (authorityBytes m).length := by
    have h := skipN_rrs m.authority (serialize m)
      (header12 m ++ questionBytes m ++ answerBytes m) (additionalBytes m)
      hm.2.2.2.2.2.2.2.2.1
      (by rw [serialize_decomp]; simp [header12, authorityBytes, List.append_assoc])
    simp only [List.length_append, length_header12] at h
    exact h
  simp only [findSections, readU16_serialize_qd m hm, readU16_serialize_an m hm,
    readU16_serialize_ns m hm, readU16_serialize_ar m hm, hq, ha, hn]
  rfl

/-- `parseAdditionalRecords` over serialized records yields exactly the
structural spans. -/
theorem parseAdd_spans (rs : List RR) :
    ∀ (buf pre rest : List Nat), (∀ r ∈ rs, ValidRR r) →
    buf = pre ++ (rs.map encodeRR).flatten ++ rest →
    parseAdditionalRecords buf pre.length rs.length = spansOf pre.length rs := by
  induction rs with
  | nil =>
    intro buf pre rest _h _hbuf
    rfl
  | cons r rs ih =>
    intro buf pre rest h hbuf
    have hvr : ValidRR r := h r (by simp)
    have hname : skipName buf pre.length = pre.length + (encodeName r.name).length :=
      skipName_encode buf pre
        (writeU16BE r.rtype ++ writeU16BE r.rclass ++ writeU32BE r.ttl ++
          writeU16BE r.rdata.length ++ r.rdata ++ (rs.map encodeRR).flatten ++ rest)
        r.name hvr.1
        (by rw [hbuf]; simp [encodeRR, List.append_assoc])
    have hcan : buf = pre ++ encodeName r.name ++ writeU16BE r.rtype ++
        writeU16BE r.rclass ++ writeU32BE r.ttl ++ writeU16BE r.rdata.length ++ r.rdata ++
        (rs.map encodeRR).flatten ++ rest := by
      rw [hbuf]
      simp [encodeRR, List.append_assoc]
    have htype : readU16 buf (pre.length + (encodeName r.name).length) = r.rtype := by
      have hh := readU16_at (pre ++ encodeName r.name)
        (writeU16BE r.rclass ++ writeU32BE r.ttl ++ writeU16BE r.rdata.length ++ r.rdata ++
          (rs.map encodeRR).flatten ++ rest) r.rtype hvr.2.1
      simp only [List.length_append, ← List.append_assoc] at hh
      rw [← hcan] at hh
      exact hh
    have hklass : readU16 buf (pre.length + (encodeName r.name).length + 2) = r.rclass := by
      have hh := readU16_at (pre ++ encodeName r.name ++ writeU16BE r.rtype)
        (writeU32BE r.ttl ++ writeU16BE r.rdata.length ++ r.rdata ++
          (rs.map encodeRR).flatten ++ rest) r.rclass hvr.2.2.1
      simp only [List.length_append, length_writeU16BE, ← List.append_assoc] at hh
      rw [← hcan] at hh
      exact hh
    have httl : readU32 buf (pre.length + (encodeName r.name).length + 4) = toInt32 r.ttl := by
      have hh := readU32_at (pre ++ encodeName r.name ++ writeU16BE r.rtype ++
          writeU16BE r.rclass)
        (writeU16BE r.rdata.length ++ r.rdata ++ (rs.map encodeRR).flatten ++ rest)
        r.ttl hvr.2.2.2.1
      simp only [List.length_append, length_writeU16BE, ← List.append_assoc] at hh
      rw [← hcan] at hh
      have he : pre.length + (encodeName r.name).length + 2 + 2 =
          pre.length + (encodeName r.name).length + 4 := by omega
      rw [he] at hh
      exact hh
    have hrdlen : readU16 buf (pre.length + (encodeName r.name).length + 8) =
        r.rdata.length := by
      have hh := readU16_at (pre ++ encodeName r.name ++ writeU16BE r.rtype ++
          writeU16BE r.rclass ++ writeU32BE r.ttl)
        (r.rdata ++ (rs.map encodeRR).flatten ++ rest) r.rdata.length hvr.2.2.2.2.1
      simp only [List.length_append, length_writeU16BE, length_writeU32BE,
        ← List.append_assoc] at hh
      rw [← hcan] at hh
      have he : pre.length + (encodeName r.name).length + 2 + 2 + 4 =
          pre.length + (encodeName r.name).length + 8 := by omega
      rw [he] at hh
      exact hh
    simp only [List.length_cons]
    rw [parseAdditionalRecords, spansOf]
    simp only [hname, htype, hklass, httl, hrdlen, List.cons.injEq]
    constructor
    · simp [mkSpan, RRSpan.mk.injEq, encodeRR, length_writeU16BE, length_writeU32BE]
      all_goals omega
    · have hre : pre.length + (encodeName r.name).length + 10 + r.rdata.length =
          (pre ++ encodeRR r).length := by
        simp [encodeRR, length_writeU16BE, length_writeU32BE]
        omega
      rw [hre, ih buf (pre ++ encodeRR r) rest (fun x hx => h x (by simp [hx]))
        (by rw [hbuf]; simp [List.append_assoc])]
      simp

theorem find_spansOf_none (rs : List RR) :
    ∀ off, (∀ r ∈ rs, r.rtype ≠ 41) →
    (spansOf off rs).find? (fun s => s.type = 41) = none := by
  induction rs with
  | nil =>
    intro off _h
    rfl
  | cons r rs ih =>
    intro off h
    rw [spansOf, List.find?_cons_of_neg]
    · exact ih _ (fun x hx => h x (by simp [hx]))
    · simp [mkSpan]
      exact h r (by simp)

theorem find_spansOf_first (rs1 : List RR) :
    ∀ (off : Nat) (opt : RR) (rs2 : List RR),
    (∀ r ∈ rs1, r.rtype ≠ 41) → opt.rtype = 41 →
    (spansOf off (rs1 ++ opt :: rs2)).find? (fun s => s.type = 41) =
      some (mkSpan (off + ((rs1.map encodeRR).flatten).length) opt) := by
  induction rs1 with
  | nil =>
    intro off opt rs2 _h hopt
    show (mkSpan off opt :: spansOf _ rs2).find? _ = _
    rw [List.find?_cons_of_pos]
    · simp
    · simp [mkSpan, hopt]
  | cons r rs1 ih =>
    intro off opt rs2 h hopt
    show (mkSpan off r :: spansOf (off + (encodeRR r).length) (rs1 ++ opt :: rs2)).find? _ = _
    rw [List.find?_cons_of_neg]
    · rw [ih (off + (encodeRR r).length) opt rs2 (fun x hx => h x (by simp [hx])) hopt]
      have he : off + (encodeRR r).length + ((rs1.map encodeRR).flatten).length =
          off + (((r :: rs1).map encodeRR).flatten).length := by
        simp
        omega
      rw [he]
    · simp [mkSpan]
      exact h r (by simp)

theorem jsSlice_zero (l : List Nat) (b : Nat) : jsSlice l 0 b = l.take b := by
  unfold jsSlice
  rw [List.drop_zero]

theorem jsSlice_extract (pre mid rest : List Nat) :
    jsSlice (pre ++ mid ++ rest) pre.length (pre.length + mid.length) = mid := by
  unfold jsSlice
  rw [List.append_assoc, List.take_append, List.take_left, List.drop_left]

/-- The option scan over a serialized option list followed by a tail at
which the scan stops: it keeps exactly the encoded non-ECS options, in
order, and drops the tail. -/
theorem parseOptions_encode (opts : List EOpt) :
    ∀ (buf pre g rest : List Nat), (∀ o ∈ opts, ValidOpt o) → StopsScan g →
    buf = pre ++ (opts.map encodeOpt).flatten ++ g ++ rest →
    parseOptions buf pre.length
        (pre.length + ((opts.map encodeOpt).flatten).length + g.length) =
      (opts.filter (fun o => o.code ≠ 8)).map encodeOpt := by
  induction opts with
  | nil =>
    intro buf pre g rest _h hg hbuf
    simp only [List.map_nil, List.flatten_nil, List.length_nil, Nat.add_zero]
    rw [parseOptions_unfold]
    rcases hg with hshort | hover
    · rw [if_neg (by omega)]
      rfl
    · by_cases hin : pre.length + 4 ≤ pre.length + g.length
      · rw [if_pos hin]
        have hb2 : buf = pre ++ g ++ rest := by
          rw [hbuf]
          simp
        have h2 : jsGet buf (pre.length + 2) = jsGet g 2 := by
          rw [hb2]
          exact jsGet_at pre g rest 2 (by omega)
        have h3 : jsGet buf (pre.length + 3) = jsGet g 3 := by
          rw [hb2]
          exact jsGet_at pre g rest 3 (by omega)
        have hlen : readU16 buf (pre.length + 2) = jsGet g 2 * 256 + jsGet g 3 := by
          unfold readU16
          rw [h2]
          have he : pre.length + 2 + 1 = pre.length + 3 := by omega
          rw [he, h3]
        rw [if_pos (by rw [hlen]; omega)]
        rfl
      · rw [if_neg hin]
        rfl
  | cons o opts ih =>
    intro buf pre g rest h hg hbuf
    have hvo : ValidOpt o := h o (by simp)
    have hcan : buf = pre ++ writeU16BE o.code ++ writeU16BE o.data.length ++ o.data ++
        (opts.map encodeOpt).flatten ++ g ++ rest := by
      rw [hbuf]
      simp [encodeOpt, List.append_assoc]
    have hcode : readU16 buf pre.length = o.code := by
      have hh := readU16_at pre
        (writeU16BE o.data.length ++ o.data ++ (opts.map encodeOpt).flatten ++ g ++ rest)
        o.code hvo.1
      simp only [← List.append_assoc] at hh
      rw [← hcan] at hh
      exact hh
    have hlen : readU16 buf (pre.length + 2) = o.data.length := by
      have hh := readU16_at (pre ++ writeU16BE o.code)
        (o.data ++ (opts.map encodeOpt).flatten ++ g ++ rest) o.data.length hvo.2.1
      simp only [List.length_append, length_writeU16BE, ← List.append_assoc] at hh
      rw [← hcan] at hh
      exact hh
    have hfl : (((o :: opts).map encodeOpt).flatten).length =
        4 + o.data.length + ((opts.map encodeOpt).flatten).length := by
      simp [encodeOpt, length_writeU16BE]
      omega
    rw [parseOptions_unfold]
    rw [if_pos (by rw [hfl]; omega)]
    rw [hlen, hcode]
    rw [if_neg (by rw [hfl]; omega)]
    have hoptEnd : pre.length + 4 + o.data.length = (pre ++ encodeOpt o).length := by
      simp [encodeOpt, length_writeU16BE]
      omega
    by_cases hc : o.code ≠ 8
    · rw [if_pos hc]
      have hslice : jsSlice buf pre.length (pre.length + 4 + o.data.length) = encodeOpt o := by
        have hh := jsSlice_extract pre (encodeOpt o)
          ((opts.map encodeOpt).flatten ++ g ++ rest)
        have hb3 : pre ++ encodeOpt o ++ ((opts.map encodeOpt).flatten ++ g ++ rest) =
            buf := by
          rw [hbuf]
          simp [encodeOpt, List.append_assoc]
        rw [hb3] at hh
        have he : pre.length + (encodeOpt o).length = pre.length + 4 + o.data.length := by
          simp [encodeOpt, length_writeU16BE]
          omega
        rw [he] at hh
        exact hh
      rw [hslice]
      rw [hoptEnd]
      have hih := ih buf (pre ++ encodeOpt o) g rest (fun x hx => h x (by simp [hx])) hg
        (by rw [hbuf]; simp [List.append_assoc])
      have he2 : (pre ++ encodeOpt o).length + ((opts.map encodeOpt).flatten).length +
          g.length = pre.length + (((o :: opts).map encodeOpt).flatten).length + g.length := by
        simp [encodeOpt, length_writeU16BE]
        omega
      rw [he2] at hih
      rw [hih]
      have hfil : (o :: opts).filter (fun x => decide (x.code ≠ 8)) =
          o :: opts.filter (fun x => decide (x.code ≠ 8)) := by
        rw [List.filter_cons_of_pos]
        simp [hc]
      rw [hfil]
      simp
    · rw [if_neg hc]
      rw [hoptEnd]
      have hih := ih buf (pre ++ encodeOpt o) g rest (fun x hx => h x (by simp [hx])) hg
        (by rw [hbuf]; simp [List.append_assoc])
      have he2 : (pre ++ encodeOpt o).length + ((opts.map encodeOpt).flatten).length +
          g.length = pre.length + (((o :: opts).map encodeOpt).flatten).length + g.length := by
        simp [encodeOpt, length_writeU16BE]
        omega
      rw [he2] at hih
      rw [hih]
      have hfil : (o :: opts).filter (fun x => decide (x.code ≠ 8)) =
          opts.filter (fun x => decide (x.code ≠ 8)) := by
        rw [List.filter_cons_of_neg]
        simp at hc
        simp [hc]
      rw [hfil]

/-!
## The two branches of `injectECS` on serialized messages
-/

theorem parseIp_some_ne_empty (ip : List Char) (v : IpAddr) (h : parseIp ip = some v) :
    ip ≠ [] := by
  intro he
  rw [he] at h
  simp [parseIp] at h

theorem length_addPre (m : Msg) :
    (header12 m ++ questionBytes m ++ answerBytes m ++ authorityBytes m).length =
      additionalStartOf m := by
  simp [additionalStartOf, length_header12]
  omega

theorem parseAdd_serialize (m : Msg) (hm : Structured m) :
    parseAdditionalRecords (serialize m) (additionalStartOf m) m.additional.length =
      spansOf (additionalStartOf m) m.additional := by
  have h := parseAdd_spans m.additional (serialize m)
    (header12 m ++ questionBytes m ++ answerBytes m ++ authorityBytes m) []
    hm.2.2.2.2.2.2.2.2.2
    (by rw [serialize_decomp]; simp [header12, additionalBytes, List.append_assoc])
  rwa [length_addPre] at h

theorem injectECS_opt_branch (m : Msg) (ip : List Char) (ipv : IpAddr) (cfg : Cfg)
    (rs1 : List RR) (opt : RR) (rs2 : List RR)
    (hm : Structured m) (hip : parseIp ip = some ipv)
    (hdec : m.additional = rs1 ++ opt :: rs2)
    (hno : ∀ r ∈ rs1, r.rtype ≠ 41) (hopt : opt.rtype = 41) :
    injectECS (serialize m) ip cfg =
      (serialize m).take (rdlenOffsetOf m rs1 opt) ++
        writeU16BE (newRdataFor m rs1 opt ipv cfg).length ++
        newRdataFor m rs1 opt ipv cfg ++
        (serialize m).drop (rdataEndOf m rs1 opt) := by
  have hne := parseIp_some_ne_empty ip ipv hip
  have hfind : (parseAdditionalRecords (serialize m) (additionalStartOf m)
      m.additional.length).find? (fun r => r.type = 41) =
      some (mkSpan (optOffset m rs1) opt) := by
    rw [parseAdd_serialize m hm, hdec, find_spansOf_first rs1 (additionalStartOf m) opt rs2
      hno hopt]
    rfl
  simp only [injectECS, if_neg hne, hip, findSections_serialize m hm, hfind, jsSlice_zero,
    mkSpan]
  simp only [newRdataFor, rdlenOffsetOf, rdataStartOf, rdataEndOf, ecsFor, optOffset]

theorem injectECS_noOpt_branch (m : Msg) (ip : List Char) (ipv : IpAddr) (cfg : Cfg)
    (hm : Structured m) (hip : parseIp ip = some ipv)
    (hno : ∀ r ∈ m.additional, r.rtype ≠ 41) :
    injectECS (serialize m) ip cfg =
      ((serialize m ++ newOptRecord (ecsFor ipv cfg)).set 10
          (((m.additional.length + 1) >>> 8) &&& 255)).set 11
        ((m.additional.length + 1) &&& 255) := by
  have hne := parseIp_some_ne_empty ip ipv hip
  have hfind : (parseAdditionalRecords (serialize m) (additionalStartOf m)
      m.additional.length).find? (fun r => r.type = 41) = none := by
    rw [parseAdd_serialize m hm]
    exact find_spansOf_none m.additional (additionalStartOf m) hno
  simp only [injectECS, if_neg hne, hip, findSections_serialize m hm, hfind,
    readU16_serialize_ar m hm]
  simp only [newOptRecord, ecsFor]

theorem length_encodeRR (r : RR) :
    (encodeRR r).length = (encodeName r.name).length + 10 + r.rdata.length := by
  simp [encodeRR, length_writeU16BE, length_writeU32BE]
  omega

/-- The serialization of a message whose Additional section is split
around one record. -/
theorem serialize_opt_decomp (m : Msg) (rs1 : List RR) (opt : RR) (rs2 : List RR)
    (hdec : m.additional = rs1 ++ opt :: rs2) :
    serialize m =
      (header12 m ++ questionBytes m ++ answerBytes m ++ authorityBytes m ++
        (rs1.map encodeRR).flatten) ++ encodeRR opt ++ (rs2.map encodeRR).flatten := by
  rw [serialize_decomp]
  simp [header12, additionalBytes, hdec, List.append_assoc]

theorem length_optPre (m : Msg) (rs1 : List RR) :
    (header12 m ++ questionBytes m ++ answerBytes m ++ authorityBytes m ++
      (rs1.map encodeRR).flatten).length = optOffset m rs1 := by
  simp [optOffset, additionalStartOf, length_header12]
  omega

theorem rdataEnd_le_length (m : Msg) (rs1 : List RR) (opt : RR) (rs2 : List RR)
    (hdec : m.additional = rs1 ++ opt :: rs2) :
    rdataEndOf m rs1 opt ≤ (serialize m).length ∧
    (serialize m).length =
      rdataEndOf m rs1 opt + ((rs2.map encodeRR).flatten).length ∧
    rdlenOffsetOf m rs1 opt + 2 + opt.rdata.length = rdataEndOf m rs1 opt := by
  have h := congrArg List.length (serialize_opt_decomp m rs1 opt rs2 hdec)
  simp only [List.length_append] at h
  have h12 := length_header12 m
  have he := length_encodeRR opt
  unfold rdataEndOf rdlenOffsetOf optOffset additionalStartOf
  refine ⟨by omega, by omega, by omega⟩

/-- C8: for a well-formed message with an OPT record and a parseable
client IP, the output is the input with exactly the OPT rdata region
spliced: the bytes before the RDLENGTH field and after the old rdata end
are byte-identical (in particular everything before the Additional
section is untouched), and the output length is the input length plus
the new rdata length minus the old. -/
theorem C8_frame (m : Msg) (ip : List Char) (ipv : IpAddr) (cfg : Cfg)
    (rs1 : List RR) (opt : RR) (rs2 : List RR)
    (hm : WellFormedQuery m) (hip : parseIp ip = some ipv)
    (hdec : m.additional = rs1 ++ opt :: rs2)
    (hno : ∀ r ∈ rs1, r.rtype ≠ 41) (hopt : opt.rtype = 41) :
    injectECS (serialize m) ip cfg =
      (serialize m).take (rdlenOffsetOf m rs1 opt) ++
        writeU16BE (newRdataFor m rs1 opt ipv cfg).length ++
        newRdataFor m rs1 opt ipv cfg ++ (serialize m).drop (rdataEndOf m rs1 opt) ∧
    (injectECS (serialize m) ip cfg).take (rdlenOffsetOf m rs1 opt) =
      (serialize m).take (rdlenOffsetOf m rs1 opt) ∧
    (injectECS (serialize m) ip cfg).drop
        (rdlenOffsetOf m rs1 opt + 2 + (newRdataFor m rs1 opt ipv cfg).length) =
      (serialize m).drop (rdataEndOf m rs1 opt) ∧
    (injectECS (serialize m) ip cfg).take (additionalStartOf m) =
      (serialize m).take (additionalStartOf m) ∧
    ((injectECS (serialize m) ip cfg).length : Int) =
      ((serialize m).length : Int) + (newRdataFor m rs1 opt ipv cfg).length -
        opt.rdata.length := by
  have hout := injectECS_opt_branch m ip ipv cfg rs1 opt rs2 hm.1 hip hdec hno hopt
  obtain ⟨hle, hlen, hend⟩ := rdataEnd_le_length m rs1 opt rs2 hdec
  have hrdle : rdlenOffsetOf m rs1 opt ≤ (serialize m).length := by omega
  have htk : ((serialize m).take (rdlenOffsetOf m rs1 opt)).length =
      rdlenOffsetOf m rs1 opt := by
    rw [List.length_take]
    omega
  have htake : (injectECS (serialize m) ip cfg).take (rdlenOffsetOf m rs1 opt) =
      (serialize m).take (rdlenOffsetOf m rs1 opt) := by
    rw [hout]
    rw [show (serialize m).take (rdlenOffsetOf m rs1 opt) ++
        writeU16BE (newRdataFor m rs1 opt ipv cfg).length ++
        newRdataFor m rs1 opt ipv cfg ++ (serialize m).drop (rdataEndOf m rs1 opt) =
      (serialize m).take (rdlenOffsetOf m rs1 opt) ++
        (writeU16BE (newRdataFor m rs1 opt ipv cfg).length ++
          (newRdataFor m rs1 opt ipv cfg ++
            (serialize m).drop (rdataEndOf m rs1 opt))) from by
      simp [List.append_assoc]]
    rw [List.take_left' htk]
  refine ⟨hout, htake, ?_, ?_, ?_⟩
  · rw [hout]
    have hl2 : ((serialize m).take (rdlenOffsetOf m rs1 opt) ++
        writeU16BE (newRdataFor m rs1 opt ipv cfg).length ++
        newRdataFor m rs1 opt ipv cfg).length =
        rdlenOffsetOf m rs1 opt + 2 + (newRdataFor m rs1 opt ipv cfg).length := by
      simp only [List.length_append, length_writeU16BE, htk]
    rw [List.drop_left' hl2]
  · have haddle : additionalStartOf m ≤ rdlenOffsetOf m rs1 opt := by
      unfold rdlenOffsetOf optOffset
      omega
    rw [← Nat.min_eq_left haddle, ← List.take_take, htake, List.take_take,
      Nat.min_eq_left haddle]
  · rw [hout]
    simp only [List.length_append, length_writeU16BE, htk, List.length_drop]
    omega

/-- Witness for C8 at a concrete query already carrying an OPT record. -/
theorem C8_witness :
    WellFormedQuery mOptW ∧ parseIp clientIp203 = some ipv203 ∧
    mOptW.additional = [] ++ optW :: [] ∧ RR.rtype optW = 41 ∧
    ((injectECS (serialize mOptW) clientIp203 defaultCfg).take
        (rdlenOffsetOf mOptW [] optW) =
      (serialize mOptW).take (rdlenOffsetOf mOptW [] optW) ∧
    ((injectECS (serialize mOptW) clientIp203 defaultCfg).length : Int) =
      ((serialize mOptW).length : Int) +
        (newRdataFor mOptW [] optW ipv203 defaultCfg).length - (RR.rdata optW).length) :=
  ⟨by decide, by decide, by decide, by decide,
   (C8_frame mOptW clientIp203 ipv203 defaultCfg [] optW [] (by decide) (by decide)
      (by decide) (by decide) (by decide)).2.1,
   (C8_frame mOptW clientIp203 ipv203 defaultCfg [] optW [] (by decide) (by decide)
      (by decide) (by decide) (by decide)).2.2.2.2⟩

/-- `buildEcsOption` is itself one encoded option with code 8. -/
theorem buildEcsOption_as_encodeOpt (b : List Nat) (fam p : Nat) :
    buildEcsOption b fam p =
      encodeOpt { code := 8, data := writeU16BE fam ++ [p &&& 255, 0] ++ ecsTrimmed b p } := by
  rw [buildEcsOption_eq]
  have h : (writeU16BE fam ++ [p &&& 255, 0] ++ ecsTrimmed b p).length = 4 + (p + 7) / 8 := by
    simp [length_writeU16BE, length_ecsTrimmed]
    omega
  show _ = writeU16BE 8 ++
    writeU16BE (writeU16BE fam ++ [p &&& 255, 0] ++ ecsTrimmed b p).length ++
    (writeU16BE fam ++ [p &&& 255, 0] ++ ecsTrimmed b p)
  rw [h]

/-- The scan of the found OPT record's rdata inside a serialized
message, when that rdata is a serialized option list followed by a tail
at which the scan stops. -/
theorem parseOptions_serialize (m : Msg) (rs1 : List RR) (opt : RR) (rs2 : List RR)
    (opts : List EOpt) (g : List Nat)
    (hdec : m.additional = rs1 ++ opt :: rs2)
    (hrdata : opt.rdata = (opts.map encodeOpt).flatten ++ g)
    (hopts : ∀ o ∈ opts, ValidOpt o) (hg : StopsScan g) :
    parseOptions (serialize m) (rdataStartOf m rs1 opt) (rdataEndOf m rs1 opt) =
      (opts.filter (fun o => o.code ≠ 8)).map encodeOpt := by
  have hpre : (header12 m ++ questionBytes m ++ answerBytes m ++ authorityBytes m ++
      (rs1.map encodeRR).flatten ++ encodeName opt.name ++ writeU16BE opt.rtype ++
      writeU16BE opt.rclass ++ writeU32BE opt.ttl ++ writeU16BE opt.rdata.length).length =
      rdataStartOf m rs1 opt := by
    simp only [List.length_append, length_writeU16BE, length_writeU32BE, length_header12]
    unfold rdataStartOf optOffset additionalStartOf
    omega
  have hbuf : serialize m = header12 m ++ questionBytes m ++ answerBytes m ++
      authorityBytes m ++ (rs1.map encodeRR).flatten ++ encodeName opt.name ++
      writeU16BE opt.rtype ++ writeU16BE opt.rclass ++ writeU32BE opt.ttl ++
      writeU16BE opt.rdata.length ++ ((opts.map encodeOpt).flatten ++ (g ++
        (rs2.map encodeRR).flatten)) := by
    rw [serialize_opt_decomp m rs1 opt rs2 hdec]
    simp [encodeRR, hrdata, List.append_assoc]
  have h := parseOptions_encode opts (serialize m)
    (header12 m ++ questionBytes m ++ answerBytes m ++ authorityBytes m ++
      (rs1.map encodeRR).flatten ++ encodeName opt.name ++ writeU16BE opt.rtype ++
      writeU16BE opt.rclass ++ writeU32BE opt.ttl ++ writeU16BE opt.rdata.length)
    g ((rs2.map encodeRR).flatten) hopts hg (by rw [hbuf]; simp [List.append_assoc])
  rw [hpre] at h
  have he : rdataStartOf m rs1 opt + ((opts.map encodeOpt).flatten).length + g.length =
      rdataEndOf m rs1 opt := by
    unfold rdataStartOf rdataEndOf optOffset
    have h1 := length_encodeRR opt
    have h2 := congrArg List.length hrdata
    simp only [List.length_append] at h2
    omega
  rw [he] at h
  exact h

/-- C4: for a well-formed message that already carries a Client-Subnet
option inside its OPT record, the rewritten rdata is the serialization
of: all old options that are not code 8, in their original order,
followed by exactly one code-8 option — the freshly built one. -/
theorem C4_replacement (m : Msg) (ip : List Char) (ipv : IpAddr) (cfg : Cfg)
    (rs1 : List RR) (opt : RR) (rs2 : List RR) (opts : List EOpt)
    (hm : WellFormedQuery m) (hip : parseIp ip = some ipv)
    (hdec : m.additional = rs1 ++ opt :: rs2)
    (hno : ∀ r ∈ rs1, r.rtype ≠ 41) (hopt : opt.rtype = 41)
    (hrdata : opt.rdata = (opts.map encodeOpt).flatten)
    (hopts : ∀ o ∈ opts, ValidOpt o) :
    ∃ payload : List Nat,
      ecsFor ipv cfg = encodeOpt { code := 8, data := payload } ∧
      injectECS (serialize m) ip cfg =
        (serialize m).take (rdlenOffsetOf m rs1 opt) ++
          writeU16BE (newRdataFor m rs1 opt ipv cfg).length ++
          newRdataFor m rs1 opt ipv cfg ++ (serialize m).drop (rdataEndOf m rs1 opt) ∧
      newRdataFor m rs1 opt ipv cfg =
        (((opts.filter (fun o => o.code ≠ 8)) ++
            [({ code := 8, data := payload } : EOpt)]).map encodeOpt).flatten ∧
      ((opts.filter (fun o => o.code ≠ 8)) ++
          [({ code := 8, data := payload } : EOpt)]).countP (fun o => o.code = 8) = 1 ∧
      ((opts.filter (fun o => o.code ≠ 8)) ++
          [({ code := 8, data := payload } : EOpt)]).getLast? =
        some { code := 8, data := payload } := by
  refine ⟨writeU16BE ipv.family ++
    [(if ipv.family = 1 then cfg.ECS_V4_PREFIX else cfg.ECS_V6_PREFIX) &&& 255, 0] ++
    ecsTrimmed ipv.bytes (if ipv.family = 1 then cfg.ECS_V4_PREFIX else cfg.ECS_V6_PREFIX),
    ?_, ?_, ?_, ?_, ?_⟩
  · unfold ecsFor
    exact buildEcsOption_as_encodeOpt ipv.bytes ipv.family _
  · exact injectECS_opt_branch m ip ipv cfg rs1 opt rs2 hm.1 hip hdec hno hopt
  · unfold newRdataFor
    rw [parseOptions_serialize m rs1 opt rs2 opts [] hdec (by rw [hrdata]; simp) hopts
      (Or.inl (by simp))]
    unfold ecsFor
    rw [buildEcsOption_as_encodeOpt]
    simp
  · rw [List.countP_append]
    have h1 : (opts.filter (fun o => decide (o.code ≠ 8))).countP
        (fun o => decide (o.code = 8)) = 0 := by
      rw [List.countP_eq_zero]
      intro a ha
      have h2 := List.of_mem_filter ha
      simp only [decide_eq_true_eq] at h2 ⊢
      omega
    rw [h1]
    rfl
  · exact List.getLast?_concat _

/-- Witness for C4 at a query whose OPT record holds an old ECS option
and one unrelated option. -/
theorem C4_witness :
    WellFormedQuery mEcsW ∧ parseIp clientIp203 = some ipv203 ∧
    mEcsW.additional = [] ++ optEcsW :: [] ∧ RR.rtype optEcsW = 41 ∧
    RR.rdata optEcsW = (([⟨8, [0, 1, 16, 0]⟩, ⟨10, [7]⟩] : List EOpt).map encodeOpt).flatten ∧
    (∃ payload : List Nat,
      ecsFor ipv203 defaultCfg = encodeOpt { code := 8, data := payload } ∧
      injectECS (serialize mEcsW) clientIp203 defaultCfg =
        (serialize mEcsW).take (rdlenOffsetOf mEcsW [] optEcsW) ++
          writeU16BE (newRdataFor mEcsW [] optEcsW ipv203 defaultCfg).length ++
          newRdataFor mEcsW [] optEcsW ipv203 defaultCfg ++
          (serialize mEcsW).drop (rdataEndOf mEcsW [] optEcsW) ∧
      newRdataFor mEcsW [] optEcsW ipv203 defaultCfg =
        (((([⟨8, [0, 1, 16, 0]⟩, ⟨10, [7]⟩] : List EOpt).filter (fun o => o.code ≠ 8)) ++
            [({ code := 8, data := payload } : EOpt)]).map encodeOpt).flatten ∧
      ((([⟨8, [0, 1, 16, 0]⟩, ⟨10, [7]⟩] : List EOpt).filter (fun o => o.code ≠ 8)) ++
          [({ code := 8, data := payload } : EOpt)]).countP (fun o => o.code = 8) = 1 ∧
      ((([⟨8, [0, 1, 16, 0]⟩, ⟨10, [7]⟩] : List EOpt).filter (fun o => o.code ≠ 8)) ++
          [({ code := 8, data := payload } : EOpt)]).getLast? =
        some { code := 8, data := payload }) :=
  ⟨by decide, by decide, by decide, by decide, by decide,
   C4_replacement mEcsW clientIp203 ipv203 defaultCfg [] optEcsW []
     [⟨8, [0, 1, 16, 0]⟩, ⟨10, [7]⟩] (by decide) (by decide) (by decide) (by decide)
     (by decide) (by decide) (by decide)⟩

/-!
## Size bounds needed for the RDLENGTH and ARCOUNT fields
-/

theorem length_encodeName_pos (n : DName) : 1 ≤ (encodeName n).length := by
  obtain ⟨labels, e⟩ := n
  cases e with
  | zero => simp [encodeName, encodeEnd]
  | ptr hi lo => simp [encodeName, encodeEnd]

theorem questionBytes_ge (m : Msg) (h : 1 ≤ m.questions.length) :
    5 ≤ (questionBytes m).length := by
  unfold questionBytes
  cases hq : m.questions with
  | nil =>
    rw [hq] at h
    simp at h
  | cons q qs =>
    simp only [List.map_cons, List.flatten_cons, List.length_append]
    have h1 : 1 ≤ (encodeName q.name).length := length_encodeName_pos q.name
    have h2 : (encodeQuestion q).length = (encodeName q.name).length + 4 := by
      simp [encodeQuestion, length_writeU16BE]
    omega

theorem parseIp_family (ip : List Char) (v : IpAddr) (h : parseIp ip = some v) :
    v.family = 1 ∨ v.family = 2 := by
  unfold parseIp at h
  by_cases h1 : ip = []
  · rw [if_pos h1] at h
    exact absurd h (by simp)
  · rw [if_neg h1] at h
    by_cases h2 : ip.contains ':' = true
    · rw [if_pos h2] at h
      cases hp : parseIPv6 ip with
      | none =>
        rw [hp] at h
        exact absurd h (by simp)
      | some b =>
        rw [hp] at h
        injection h with h3
        right
        rw [← h3]
    · rw [if_neg h2] at h
      cases hp : parseIPv4 ip with
      | none =>
        rw [hp] at h
        exact absurd h (by simp)
      | some b =>
        rw [hp] at h
        injection h with h3
        left
        rw [← h3]

theorem length_ecsFor_le (ipv : IpAddr) (cfg : Cfg) (hcfg : ValidCfg cfg) :
    (ecsFor ipv cfg).length ≤ 24 := by
  unfold ecsFor
  rw [length_buildEcsOption]
  have hp : (if ipv.family = 1 then cfg.ECS_V4_PREFIX else cfg.ECS_V6_PREFIX) ≤ 128 := by
    obtain ⟨hc1, hc2⟩ := hcfg
    split <;> omega
  omega

theorem parseOptionsAux_flatten_le (buf : List Nat) (fuel : Nat) :
    ∀ p e, ((parseOptionsAux buf fuel p e).flatten).length ≤ e - p := by
  induction fuel with
  | zero =>
    intro p e
    simp [parseOptionsAux]
  | succ k ih =>
    intro p e
    simp only [parseOptionsAux]
    by_cases h1 : p + 4 ≤ e
    · rw [if_pos h1]
      by_cases h2 : p + 4 + readU16 buf (p + 2) > e
      · rw [if_pos h2]
        simp
      · rw [if_neg h2]
        by_cases h3 : readU16 buf p ≠ 8
        · rw [if_pos h3]
          simp only [List.flatten_cons, List.length_append]
          have hs : (jsSlice buf p (p + 4 + readU16 buf (p + 2))).length ≤
              4 + readU16 buf (p + 2) := by
            unfold jsSlice
            simp only [List.length_drop, List.length_take]
            omega
          have hr := ih (p + 4 + readU16 buf (p + 2)) e
          omega
        · rw [if_neg h3]
          have hr := ih (p + 4 + readU16 buf (p + 2)) e
          omega
    · rw [if_neg h1]
      simp

theorem parseOptions_flatten_le (buf : List Nat) (p e : Nat) :
    ((parseOptions buf p e).flatten).length ≤ e - p := by
  unfold parseOptions
  exact parseOptionsAux_flatten_le buf (e - p) p e

/-- The rewritten OPT rdata always fits the 16-bit RDLENGTH field, for a
well-formed query and a valid configuration. -/
theorem newRdata_length_lt (m : Msg) (rs1 : List RR) (opt : RR) (rs2 : List RR)
    (ipv : IpAddr) (cfg : Cfg)
    (hm : WellFormedQuery m) (hdec : m.additional = rs1 ++ opt :: rs2)
    (hcfg : ValidCfg cfg) :
    (newRdataFor m rs1 opt ipv cfg).length < 65536 := by
  unfold newRdataFor
  rw [List.length_append]
  have h1 := parseOptions_flatten_le (serialize m) (rdataStartOf m rs1 opt)
    (rdataEndOf m rs1 opt)
  have h2 : rdataEndOf m rs1 opt - rdataStartOf m rs1 opt = opt.rdata.length := by
    unfold rdataStartOf rdataEndOf
    have := length_encodeRR opt
    omega
  have h3 : (ecsFor ipv cfg).length ≤ 24 := length_ecsFor_le ipv cfg hcfg
  have h4 : opt.rdata.length + 28 ≤ (serialize m).length := by
    have h5 := congrArg List.length (serialize_opt_decomp m rs1 opt rs2 hdec)
    simp only [List.length_append, length_header12] at h5
    have h6 := length_encodeRR opt
    have h7 : 1 ≤ (encodeName opt.name).length := length_encodeName_pos opt.name
    have h8 : 5 ≤ (questionBytes m).length := questionBytes_ge m hm.2.1
    omega
  have h9 := hm.2.2
  omega

/-- C9: when the found OPT record's rdata is a serialized option list
followed by trailing bytes that do not form a complete in-bounds option
(an incomplete 4-byte header, or a declared length overrunning the
rdata), `injectECS` silently drops those trailing bytes: the rewritten
rdata is exactly the complete in-bounds non-ECS options followed by the
fresh ECS option, and the RDLENGTH field of the output reads exactly the
new rdata's length. -/
theorem C9_trailing_bytes_dropped (m : Msg) (ip : List Char) (ipv : IpAddr) (cfg : Cfg)
    (rs1 : List RR) (opt : RR) (rs2 : List RR) (opts : List EOpt) (g : List Nat)
    (hm : WellFormedQuery m) (hip : parseIp ip = some ipv) (hcfg : ValidCfg cfg)
    (hdec : m.additional = rs1 ++ opt :: rs2)
    (hno : ∀ r ∈ rs1, r.rtype ≠ 41) (hopt : opt.rtype = 41)
    (hrdata : opt.rdata = (opts.map encodeOpt).flatten ++ g)
    (hopts : ∀ o ∈ opts, ValidOpt o) (hg : StopsScan g) :
    injectECS (serialize m) ip cfg =
      (serialize m).take (rdlenOffsetOf m rs1 opt) ++
        writeU16BE (newRdataFor m rs1 opt ipv cfg).length ++
        newRdataFor m rs1 opt ipv cfg ++ (serialize m).drop (rdataEndOf m rs1 opt) ∧
    newRdataFor m rs1 opt ipv cfg =
      ((opts.filter (fun o => o.code ≠ 8)).map encodeOpt).flatten ++ ecsFor ipv cfg ∧
    readU16 (injectECS (serialize m) ip cfg) (rdlenOffsetOf m rs1 opt) =
      (newRdataFor m rs1 opt ipv cfg).length := by
  have hout := injectECS_opt_branch m ip ipv cfg rs1 opt rs2 hm.1 hip hdec hno hopt
  refine ⟨hout, ?_, ?_⟩
  · unfold newRdataFor
    rw [parseOptions_serialize m rs1 opt rs2 opts g hdec hrdata hopts hg]
  · obtain ⟨hle, _hlen, _hend⟩ := rdataEnd_le_length m rs1 opt rs2 hdec
    have htk : ((serialize m).take (rdlenOffsetOf m rs1 opt)).length =
        rdlenOffsetOf m rs1 opt := by
      rw [List.length_take]
      unfold rdlenOffsetOf rdataEndOf at *
      have := length_encodeRR opt
      omega
    have hRlt := newRdata_length_lt m rs1 opt rs2 ipv cfg hm hdec hcfg
    have hr := readU16_at ((serialize m).take (rdlenOffsetOf m rs1 opt))
      (newRdataFor m rs1 opt ipv cfg ++ (serialize m).drop (rdataEndOf m rs1 opt))
      (newRdataFor m rs1 opt ipv cfg).length hRlt
    rw [htk] at hr
    rw [hout]
    rw [show (serialize m).take (rdlenOffsetOf m rs1 opt) ++
        writeU16BE (newRdataFor m rs1 opt ipv cfg).length ++
        newRdataFor m rs1 opt ipv cfg ++ (serialize m).drop (rdataEndOf m rs1 opt) =
      (serialize m).take (rdlenOffsetOf m rs1 opt) ++
        writeU16BE (newRdataFor m rs1 opt ipv cfg).length ++
        (newRdataFor m rs1 opt ipv cfg ++
          (serialize m).drop (rdataEndOf m rs1 opt)) from by
      simp [List.append_assoc]]
    exact hr

/-- Witness for C9 at a query whose OPT rdata ends with an overrunning
option header. -/
theorem C9_witness :
    WellFormedQuery mOverW ∧ parseIp clientIp203 = some ipv203 ∧
    ValidCfg defaultCfg ∧ mOverW.additional = [] ++ optOverW :: [] ∧
    RR.rdata optOverW = (([⟨10, [7]⟩] : List EOpt).map encodeOpt).flatten ++ [0, 12, 0, 99] ∧
    StopsScan [0, 12, 0, 99] ∧
    (newRdataFor mOverW [] optOverW ipv203 defaultCfg =
      ((([⟨10, [7]⟩] : List EOpt).filter (fun o => o.code ≠ 8)).map encodeOpt).flatten ++
        ecsFor ipv203 defaultCfg ∧
    readU16 (injectECS (serialize mOverW) clientIp203 defaultCfg)
        (rdlenOffsetOf mOverW [] optOverW) =
      (newRdataFor mOverW [] optOverW ipv203 defaultCfg).length) :=
  ⟨by decide, by decide, by decide, by decide, by decide, by decide,
   (C9_trailing_bytes_dropped mOverW clientIp203 ipv203 defaultCfg [] optOverW []
      [⟨10, [7]⟩] [0, 12, 0, 99] (by decide) (by decide) (by decide) (by decide)
      (by decide) (by decide) (by decide) (by decide) (by decide)).2.1,
   (C9_trailing_bytes_dropped mOverW clientIp203 ipv203 defaultCfg [] optOverW []
      [⟨10, [7]⟩] [0, 12, 0, 99] (by decide) (by decide) (by decide) (by decide)
      (by decide) (by decide) (by decide) (by decide) (by decide)).2.2⟩

/-- C6 (amended): an option whose declared OPTION-LENGTH would extend
past the record's RDLENGTH boundary is not treated as a structural parse
failure: `injectECS` silently truncates the option list there — the
overrunning option and every byte after it are dropped — and performs
the normal rewrite, returning the rewritten message rather than the
original. -/
theorem C6_truncates_not_fail_open (m : Msg) (ip : List Char) (ipv : IpAddr) (cfg : Cfg)
    (rs1 : List RR) (opt : RR) (rs2 : List RR) (opts : List EOpt) (g : List Nat)
    (hm : WellFormedQuery m) (hip : parseIp ip = some ipv)
    (hdec : m.additional = rs1 ++ opt :: rs2)
    (hno : ∀ r ∈ rs1, r.rtype ≠ 41) (hopt : opt.rtype = 41)
    (hrdata : opt.rdata = (opts.map encodeOpt).flatten ++ g)
    (hopts : ∀ o ∈ opts, ValidOpt o) (_hg4 : 4 ≤ g.length)
    (hgover : g.length < 4 + (jsGet g 2 * 256 + jsGet g 3)) :
    injectECS (serialize m) ip cfg =
      (serialize m).take (rdlenOffsetOf m rs1 opt) ++
        writeU16BE (newRdataFor m rs1 opt ipv cfg).length ++
        newRdataFor m rs1 opt ipv cfg ++ (serialize m).drop (rdataEndOf m rs1 opt) ∧
    newRdataFor m rs1 opt ipv cfg =
      ((opts.filter (fun o => o.code ≠ 8)).map encodeOpt).flatten ++ ecsFor ipv cfg := by
  refine ⟨injectECS_opt_branch m ip ipv cfg rs1 opt rs2 hm.1 hip hdec hno hopt, ?_⟩
  unfold newRdataFor
  rw [parseOptions_serialize m rs1 opt rs2 opts g hdec hrdata hopts (Or.inr (by omega))]

/-- Witness for C6 (amended) at the same overrunning-option query. -/
theorem C6_truncates_witness :
    WellFormedQuery mOverW ∧ 4 ≤ ([0, 12, 0, 99] : List Nat).length ∧
    ([0, 12, 0, 99] : List Nat).length <
      4 + (jsGet [0, 12, 0, 99] 2 * 256 + jsGet [0, 12, 0, 99] 3) ∧
    newRdataFor mOverW [] optOverW ipv203 defaultCfg =
      ((([⟨10, [7]⟩] : List EOpt).filter (fun o => o.code ≠ 8)).map encodeOpt).flatten ++
        ecsFor ipv203 defaultCfg :=
  ⟨by decide, by decide, by decide,
   (C6_truncates_not_fail_open mOverW clientIp203 ipv203 defaultCfg [] optOverW []
      [⟨10, [7]⟩] [0, 12, 0, 99] (by decide) (by decide) (by decide) (by decide)
      (by decide) (by decide) (by decide) (by decide) (by decide)).2⟩

/-!
## Byte-range facts, for rebuilding a structured message from the output
-/

theorem writeU16BE_bytes_lt (v : Nat) : ∀ b ∈ writeU16BE v, b < 256 := by
  intro b hb
  rw [writeU16BE_eq_digits] at hb
  simp at hb
  rcases hb with h | h <;> omega

theorem writeU32BE_bytes_lt (v : Nat) : ∀ b ∈ writeU32BE v, b < 256 := by
  intro b hb
  simp [writeU32BE] at hb
  rcases hb with h | h | h | h <;> omega

theorem encodeName_bytes_lt (n : DName) (hv : ValidName n) : ∀ b ∈ encodeName n, b < 256 := by
  obtain ⟨labels, e⟩ := n
  intro b hb
  simp only [encodeName, List.mem_append] at hb
  rcases hb with hb | hb
  · rw [List.mem_flatten] at hb
    obtain ⟨l2, hl2, hbl⟩ := hb
    rw [List.mem_map] at hl2
    obtain ⟨l, hl, rfl⟩ := hl2
    obtain ⟨h1, h63, hbytes⟩ := hv.1 l hl
    rcases List.mem_cons.mp hbl with rfl | hbl
    · omega
    · exact hbytes b hbl
  · cases e with
    | zero =>
      simp [encodeEnd] at hb
      omega
    | ptr hi lo =>
      simp [encodeEnd] at hb
      obtain ⟨h1, h2, h3⟩ := hv.2
      rcases hb with rfl | rfl <;> omega

theorem encodeQuestion_bytes_lt (q : Question) (hq : ValidQuestion q) :
    ∀ b ∈ encodeQuestion q, b < 256 := by
  intro b hb
  simp only [encodeQuestion, List.mem_append] at hb
  rcases hb with (hb | hb) | hb
  · exact encodeName_bytes_lt q.name hq.1 b hb
  · exact writeU16BE_bytes_lt _ b hb
  · exact writeU16BE_bytes_lt _ b hb

theorem encodeRR_bytes_lt (r : RR) (hr : ValidRR r) : ∀ b ∈ encodeRR r, b < 256 := by
  intro b hb
  simp only [encodeRR, List.mem_append] at hb
  rcases hb with ((((hb | hb) | hb) | hb) | hb) | hb
  · exact encodeName_bytes_lt r.name hr.1 b hb
  · exact writeU16BE_bytes_lt _ b hb
  · exact writeU16BE_bytes_lt _ b hb
  · exact writeU32BE_bytes_lt _ b hb
  · exact writeU16BE_bytes_lt _ b hb
  · exact hr.2.2.2.2.2 b hb

theorem flatten_questions_bytes_lt (qs : List Question) (h : ∀ q ∈ qs, ValidQuestion q) :
    ∀ b ∈ (qs.map encodeQuestion).flatten, b < 256 := by
  intro b hb
  rw [List.mem_flatten] at hb
  obtain ⟨l, hl, hbl⟩ := hb
  rw [List.mem_map] at hl
  obtain ⟨q, hq, rfl⟩ := hl
  exact encodeQuestion_bytes_lt q (h q hq) b hbl

theorem flatten_rrs_bytes_lt (rs : List RR) (h : ∀ r ∈ rs, ValidRR r) :
    ∀ b ∈ (rs.map encodeRR).flatten, b < 256 := by
  intro b hb
  rw [List.mem_flatten] at hb
  obtain ⟨l, hl, hbl⟩ := hb
  rw [List.mem_map] at hl
  obtain ⟨r, hr, rfl⟩ := hl
  exact encodeRR_bytes_lt r (h r hr) b hbl

theorem serialize_bytes_lt (m : Msg) (hm : Structured m) : ∀ b ∈ serialize m, b < 256 := by
  intro b hb
  rw [serialize_decomp] at hb
  simp only [List.mem_append] at hb
  rcases hb with ((((((((hb | hb) | hb) | hb) | hb) | hb) | hb) | hb) | hb) | hb
  · exact writeU16BE_bytes_lt _ b hb
  · exact writeU16BE_bytes_lt _ b hb
  · exact writeU16BE_bytes_lt _ b hb
  · exact writeU16BE_bytes_lt _ b hb
  · exact writeU16BE_bytes_lt _ b hb
  · exact writeU16BE_bytes_lt _ b hb
  · exact flatten_questions_bytes_lt m.questions hm.2.2.2.2.2.2.1 b hb
  · exact flatten_rrs_bytes_lt m.answers hm.2.2.2.2.2.2.2.1 b hb
  · exact flatten_rrs_bytes_lt m.authority hm.2.2.2.2.2.2.2.2.1 b hb
  · exact flatten_rrs_bytes_lt m.additional hm.2.2.2.2.2.2.2.2.2 b hb

theorem ecsTrimmed_bytes_lt (b : List Nat) (p : Nat) : ∀ x ∈ ecsTrimmed b p, x < 256 := by
  intro x hx
  have hmap : ∀ y ∈ (List.range ((p + 7) / 8)).map (fun i => jsGet b i % 256), y < 256 := by
    intro y hy
    rw [List.mem_map] at hy
    obtain ⟨i, _hi, rfl⟩ := hy
    omega
  simp only [ecsTrimmed] at hx
  split at hx
  · rcases List.mem_or_eq_of_mem_set hx with hx | rfl
    · exact hmap x hx
    · have hd : ((List.range ((p + 7) / 8)).map (fun i => jsGet b i % 256)).getD
          ((p + 7) / 8 - 1) 0 < 256 := by
        rcases Nat.lt_or_ge ((p + 7) / 8 - 1)
          (((List.range ((p + 7) / 8)).map (fun i => jsGet b i % 256)).length) with h | h
        · rw [List.getD_eq_getElem?_getD, List.getElem?_eq_getElem h]
          simp only [Option.getD_some]
          exact hmap _ (List.getElem_mem h)
        · rw [List.getD_eq_default _ _ h]
          omega
      have := Nat.and_le_left
        (n := ((List.range ((p + 7) / 8)).map (fun i => jsGet b i % 256)).getD
          ((p + 7) / 8 - 1) 0) (m := 255 <<< (8 - p % 8))
      omega
  · exact hmap x hx

theorem buildEcsOption_bytes_lt (b : List Nat) (fam p : Nat) :
    ∀ x ∈ buildEcsOption b fam p, x < 256 := by
  intro x hx
  rw [buildEcsOption_eq] at hx
  simp only [List.mem_append] at hx
  rcases hx with (hx | hx) | ((hx | hx) | hx)
  · exact writeU16BE_bytes_lt _ x hx
  · exact writeU16BE_bytes_lt _ x hx
  · exact writeU16BE_bytes_lt _ x hx
  · simp at hx
    rcases hx with rfl | rfl
    · have := Nat.and_le_right (n := p) (m := 255)
      omega
    · omega
  · exact ecsTrimmed_bytes_lt b p x hx

theorem parseOptionsAux_mem (buf : List Nat) (fuel : Nat) :
    ∀ p e s, s ∈ parseOptionsAux buf fuel p e → ∀ x ∈ s, x ∈ buf := by
  induction fuel with
  | zero =>
    intro p e s hs
    simp [parseOptionsAux] at hs
  | succ k ih =>
    intro p e s hs
    simp only [parseOptionsAux] at hs
    by_cases h1 : p + 4 ≤ e
    · rw [if_pos h1] at hs
      by_cases h2 : p + 4 + readU16 buf (p + 2) > e
      · rw [if_pos h2] at hs
        simp at hs
      · rw [if_neg h2] at hs
        by_cases h3 : readU16 buf p ≠ 8
        · rw [if_pos h3] at hs
          rcases List.mem_cons.mp hs with rfl | hs
          · intro x hx
            unfold jsSlice at hx
            exact List.take_subset _ _ (List.drop_subset _ _ hx)
          · exact ih _ _ _ hs
        · rw [if_neg h3] at hs
          exact ih _ _ _ hs
    · rw [if_neg h1] at hs
      simp at hs

theorem parseOptions_mem (buf : List Nat) (p e : Nat) :
    ∀ s ∈ parseOptions buf p e, ∀ x ∈ s, x ∈ buf := by
  intro s hs
  unfold parseOptions at hs
  exact parseOptionsAux_mem buf (e - p) p e s hs

theorem newRdataFor_bytes_lt (m : Msg) (rs1 : List RR) (opt : RR) (ipv : IpAddr)
    (cfg : Cfg) (hm : Structured m) :
    ∀ x ∈ newRdataFor m rs1 opt ipv cfg, x < 256 := by
  intro x hx
  unfold newRdataFor at hx
  rw [List.mem_append] at hx
  rcases hx with hx | hx
  · rw [List.mem_flatten] at hx
    obtain ⟨s, hs, hxs⟩ := hx
    exact serialize_bytes_lt m hm x
      (parseOptions_mem (serialize m) (rdataStartOf m rs1 opt) (rdataEndOf m rs1 opt)
        s hs x hxs)
  · exact buildEcsOption_bytes_lt ipv.bytes ipv.family _ x hx


/-!
## The ARCOUNT invariant (C3)
-/

theorem length_serialize (m : Msg) :
    (serialize m).length = 12 + (questionBytes m).length + (answerBytes m).length +
      (authorityBytes m).length + (additionalBytes m).length := by
  rw [serialize_decomp]
  simp only [List.length_append, length_writeU16BE]

/-- The freshly appended OPT record is the encoding of a root-named
type-41 record with class 4096, ttl 0 and the ECS option as rdata. -/
theorem newOptRecord_as_encodeRR (ipv : IpAddr) (cfg : Cfg) :
    newOptRecord (ecsFor ipv cfg) = encodeRR (newRRFor ipv cfg) := by
  simp [newOptRecord, encodeRR, newRRFor, encodeName, encodeEnd, writeU32BE]

/-- Writing the incremented ARCOUNT into bytes 10 and 11 of a serialized
message (with anything appended after it). -/
theorem set_header_ar (m : Msg) (x y : Nat) (tail : List Nat) :
    ((serialize m ++ tail).set 10 x).set 11 y =
      writeU16BE m.tid ++ writeU16BE m.flags ++ writeU16BE m.questions.length ++
        writeU16BE m.answers.length ++ writeU16BE m.authority.length ++ [x, y] ++
        questionBytes m ++ answerBytes m ++ authorityBytes m ++ additionalBytes m ++
        tail := by
  rw [serialize_decomp]
  simp [writeU16BE, List.append_assoc]

theorem flatten_rrs_ge (rs : List RR) :
    11 * rs.length ≤ ((rs.map encodeRR).flatten).length := by
  induction rs with
  | nil => simp
  | cons r rs ih =>
    simp only [List.map_cons, List.flatten_cons, List.length_append, List.length_cons]
    have h1 := length_encodeRR r
    have h2 := length_encodeName_pos r.name
    omega

theorem additional_count_lt (m : Msg) (hm : WellFormedQuery m) :
    m.additional.length + 1 < 65536 := by
  have h1 := flatten_rrs_ge m.additional
  have h2 := length_serialize m
  have h3 := hm.2.2
  unfold additionalBytes at h2
  omega

/-- Walking ARCOUNT records from the start of the Additional section of
a serialized message consumes the message exactly. -/
theorem skipN_rrs_serialize (m : Msg) (hm : Structured m) :
    skipN skipRR (serialize m) m.additional.length (additionalStartOf m) =
      (serialize m).length := by
  have h := skipN_rrs m.additional (serialize m)
    (header12 m ++ questionBytes m ++ answerBytes m ++ authorityBytes m) []
    hm.2.2.2.2.2.2.2.2.2
    (by rw [serialize_decomp]; simp [header12, additionalBytes, List.append_assoc])
  rw [length_addPre] at h
  rw [h, length_serialize]
  unfold additionalStartOf additionalBytes
  omega

theorem valid_newRRFor (ipv : IpAddr) (cfg : Cfg) (hcfg : ValidCfg cfg) :
    ValidRR (newRRFor ipv cfg) := by
  refine ⟨⟨?_, trivial⟩, by simp [newRRFor], by simp [newRRFor], by simp [newRRFor], ?_, ?_⟩
  · intro l hl
    simp [newRRFor] at hl
  · have := length_ecsFor_le ipv cfg hcfg
    show (ecsFor ipv cfg).length < 65536
    omega
  · intro b hb
    exact buildEcsOption_bytes_lt ipv.bytes ipv.family _ b hb

/-- Serializing a message whose Additional section was replaced. -/
theorem serialize_msgWithAdd (m : Msg) (rs : List RR) :
    serialize (msgWithAdd m rs) =
      writeU16BE m.tid ++ writeU16BE m.flags ++ writeU16BE m.questions.length ++
        writeU16BE m.answers.length ++ writeU16BE m.authority.length ++
        writeU16BE rs.length ++ questionBytes m ++ answerBytes m ++
        authorityBytes m ++ (rs.map encodeRR).flatten := rfl

theorem structured_msgWithAdd (m : Msg) (rs : List RR) (hm : Structured m)
    (hlen : rs.length < 65536) (hv : ∀ r ∈ rs, ValidRR r) :
    Structured (msgWithAdd m rs) := by
  obtain ⟨h1, h2, h3, h4, h5, _, h7, h8, h9, _⟩ := hm
  exact ⟨h1, h2, h3, h4, h5, hlen, h7, h8, h9, hv⟩

/-- The two ARCOUNT header bytes the no-OPT branch writes are the
big-endian digits of the incremented count. -/
theorem ar_digits (n : Nat) :
    ([(n >>> 8) &&& 255, n &&& 255] : List Nat) = writeU16BE n := by
  simp [writeU16BE_eq_digits, shr8_eq_div, and255_eq_mod]

/-- In the no-OPT branch the output is exactly the serialization of the
input message with the fresh OPT record appended to Additional. -/
theorem injectECS_noOpt_serial (m : Msg) (ip : List Char) (ipv : IpAddr) (cfg : Cfg)
    (hm : Structured m) (hip : parseIp ip = some ipv)
    (hno : ∀ r ∈ m.additional, r.rtype ≠ 41) :
    injectECS (serialize m) ip cfg =
      serialize (msgWithAdd m (m.additional ++ [newRRFor ipv cfg])) := by
  have hlen1 : (m.additional ++ [newRRFor ipv cfg]).length = m.additional.length + 1 := by
    simp
  rw [injectECS_noOpt_branch m ip ipv cfg hm hip hno, newOptRecord_as_encodeRR,
    set_header_ar, ar_digits (m.additional.length + 1), serialize_msgWithAdd, hlen1]
  simp [additionalBytes, List.append_assoc]

/-- In the OPT branch the output is exactly the serialization of the
input message with the found OPT record's rdata replaced by the
rewritten option data. -/
theorem injectECS_opt_serial (m : Msg) (ip : List Char) (ipv : IpAddr) (cfg : Cfg)
    (rs1 : List RR) (opt : RR) (rs2 : List RR)
    (hm : Structured m) (hip : parseIp ip = some ipv)
    (hdec : m.additional = rs1 ++ opt :: rs2)
    (hno : ∀ r ∈ rs1, r.rtype ≠ 41) (hopt : opt.rtype = 41) :
    injectECS (serialize m) ip cfg =
      serialize (msgWithAdd m
        (rs1 ++ replaceRdata opt (newRdataFor m rs1 opt ipv cfg) :: rs2)) := by
  have htk : ((header12 m ++ questionBytes m ++ answerBytes m ++ authorityBytes m ++
      (rs1.map encodeRR).flatten) ++ encodeName opt.name ++ writeU16BE opt.rtype ++
      writeU16BE opt.rclass ++ writeU32BE opt.ttl).length = rdlenOffsetOf m rs1 opt := by
    simp only [List.length_append, length_writeU16BE, length_writeU32BE, length_header12]
    unfold rdlenOffsetOf optOffset additionalStartOf
    omega
  have hbtk : serialize m = ((header12 m ++ questionBytes m ++ answerBytes m ++
      authorityBytes m ++ (rs1.map encodeRR).flatten) ++ encodeName opt.name ++
      writeU16BE opt.rtype ++ writeU16BE opt.rclass ++ writeU32BE opt.ttl) ++
      (writeU16BE opt.rdata.length ++ (opt.rdata ++ (rs2.map encodeRR).flatten)) := by
    rw [serialize_opt_decomp m rs1 opt rs2 hdec]
    simp [encodeRR, List.append_assoc]
  have htake : (serialize m).take (rdlenOffsetOf m rs1 opt) =
      (header12 m ++ questionBytes m ++ answerBytes m ++ authorityBytes m ++
        (rs1.map encodeRR).flatten) ++ encodeName opt.name ++ writeU16BE opt.rtype ++
        writeU16BE opt.rclass ++ writeU32BE opt.ttl := by
    rw [hbtk]
    exact List.take_left' htk
  have hd2 : ((header12 m ++ questionBytes m ++ answerBytes m ++ authorityBytes m ++
      (rs1.map encodeRR).flatten) ++ encodeRR opt).length = rdataEndOf m rs1 opt := by
    rw [List.length_append, length_optPre]
    rfl
  have hdrp : (serialize m).drop (rdataEndOf m rs1 opt) = (rs2.map encodeRR).flatten := by
    rw [serialize_opt_decomp m rs1 opt rs2 hdec]
    exact List.drop_left' hd2
  have hlen2 : (rs1 ++ replaceRdata opt (newRdataFor m rs1 opt ipv cfg) :: rs2).length =
      m.additional.length := by
    rw [hdec]
    simp
  rw [injectECS_opt_branch m ip ipv cfg rs1 opt rs2 hm hip hdec hno hopt, htake, hdrp,
    serialize_msgWithAdd, hlen2]
  simp [header12, encodeRR, replaceRdata, List.append_assoc]

/-- C3: for every well-formed query and parseable client IP, if the
Additional section has no OPT record (type 41), the output ARCOUNT is
the input ARCOUNT plus one; if it has one (first OPT after `rs1`
non-OPT records), the output ARCOUNT equals the input ARCOUNT; and on
both return paths the output is a serialized message whose ARCOUNT
header field equals the number of records actually present in its
Additional section, and walking that many records from the start of the
Additional section consumes the output exactly. -/
theorem C3_count_invariant (m : Msg) (ip : List Char) (ipv : IpAddr) (cfg : Cfg)
    (hm : WellFormedQuery m) (hcfg : ValidCfg cfg) (hip : parseIp ip = some ipv) :
    ((∀ r ∈ m.additional, r.rtype ≠ 41) →
      readU16 (injectECS (serialize m) ip cfg) 10 = readU16 (serialize m) 10 + 1 ∧
      ∃ m2, injectECS (serialize m) ip cfg = serialize m2 ∧ Structured m2 ∧
        readU16 (serialize m2) 10 = m2.additional.length ∧
        skipN skipRR (serialize m2) m2.additional.length (additionalStartOf m2) =
          (serialize m2).length) ∧
    (∀ rs1 opt rs2, m.additional = rs1 ++ opt :: rs2 → (∀ r ∈ rs1, r.rtype ≠ 41) →
      opt.rtype = 41 →
      readU16 (injectECS (serialize m) ip cfg) 10 = readU16 (serialize m) 10 ∧
      ∃ m2, injectECS (serialize m) ip cfg = serialize m2 ∧ Structured m2 ∧
        readU16 (serialize m2) 10 = m2.additional.length ∧
        skipN skipRR (serialize m2) m2.additional.length (additionalStartOf m2) =
          (serialize m2).length) := by
  constructor
  · intro hno
    have hser := injectECS_noOpt_serial m ip ipv cfg hm.1 hip hno
    have hcnt := additional_count_lt m hm
    have hm2 : Structured (msgWithAdd m (m.additional ++ [newRRFor ipv cfg])) := by
      refine structured_msgWithAdd m _ hm.1 (by simp; omega) ?_
      intro r hr
      rw [List.mem_append] at hr
      rcases hr with hr | hr
      · exact hm.1.2.2.2.2.2.2.2.2.2 r hr
      · rw [List.mem_singleton] at hr
        rw [hr]
        exact valid_newRRFor ipv cfg hcfg
    have har2 := readU16_serialize_ar _ hm2
    have hlen : (msgWithAdd m (m.additional ++ [newRRFor ipv cfg])).additional.length =
        m.additional.length + 1 := by
      simp [msgWithAdd]
    refine ⟨?_, msgWithAdd m (m.additional ++ [newRRFor ipv cfg]), hser, hm2, har2,
      skipN_rrs_serialize _ hm2⟩
    rw [hser, har2, hlen, readU16_serialize_ar m hm.1]
  · intro rs1 opt rs2 hdec hno1 hopt
    have hser := injectECS_opt_serial m ip ipv cfg rs1 opt rs2 hm.1 hip hdec hno1 hopt
    have hvopt : ValidRR opt := hm.1.2.2.2.2.2.2.2.2.2 opt (by rw [hdec]; simp)
    have hvopt2 : ValidRR (replaceRdata opt (newRdataFor m rs1 opt ipv cfg)) := by
      obtain ⟨hn, ht, hc, httl, _, _⟩ := hvopt
      exact ⟨hn, ht, hc, httl, newRdata_length_lt m rs1 opt rs2 ipv cfg hm hdec hcfg,
        newRdataFor_bytes_lt m rs1 opt ipv cfg hm.1⟩
    have hm2 : Structured (msgWithAdd m
        (rs1 ++ replaceRdata opt (newRdataFor m rs1 opt ipv cfg) :: rs2)) := by
      refine structured_msgWithAdd m _ hm.1 ?_ ?_
      · have h6 := hm.1.2.2.2.2.2.1
        rw [hdec] at h6
        simpa using h6
      · intro r hr
        rw [List.mem_append, List.mem_cons] at hr
        rcases hr with hr | hr | hr
        · exact hm.1.2.2.2.2.2.2.2.2.2 r (by rw [hdec]; simp [hr])
        · rw [hr]
          exact hvopt2
        · exact hm.1.2.2.2.2.2.2.2.2.2 r (by rw [hdec]; simp [hr])
    have har2 := readU16_serialize_ar _ hm2
    have hlen : (msgWithAdd m (rs1 ++ replaceRdata opt (newRdataFor m rs1 opt ipv cfg)
        :: rs2)).additional.length = m.additional.length := by
      simp [msgWithAdd, hdec]
    refine ⟨?_, msgWithAdd m (rs1 ++ replaceRdata opt (newRdataFor m rs1 opt ipv cfg)
        :: rs2), hser, hm2, har2, skipN_rrs_serialize _ hm2⟩
    rw [hser, har2, hlen, readU16_serialize_ar m hm.1]

/-- Witness for C3: a concrete no-OPT query, client IP and configuration
satisfying every hypothesis, with the incremented-ARCOUNT conclusion. -/
theorem C3_witness :
    WellFormedQuery mQueryW ∧ ValidCfg defaultCfg ∧ parseIp clientIp203 = some ipv203 ∧
    (∀ r ∈ mQueryW.additional, RR.rtype r ≠ 41) ∧
    readU16 (injectECS (serialize mQueryW) clientIp203 defaultCfg) 10 =
      readU16 (serialize mQueryW) 10 + 1 :=
  ⟨by decide, by decide, by decide, by decide,
   ((C3_count_invariant mQueryW clientIp203 ipv203 defaultCfg (by decide) (by decide)
      (by decide)).1 (by decide)).1⟩

end DohEcs
